import Mathlib

/-!
# Arduino Uno AM2301 + I2C LCD firmware: capture decoder, TWI master, timer delays

A shallow embedding of `am2301.c`, `i2c.c` and `timer.c`.  Machine integers are natural
numbers; every place where the C arithmetic can leave the range of its type carries an
explicit reduction modulo `2^8`, `2^16` or `2^32`.  Interrupt handlers are state
transition functions that take the hardware register they read as an argument.
-/

/-! ## am2301.h -/

/-- Number of entries of the interval array (`#define TIMESTAMPS 40`). -/
abbrev TIMESTAMPS : Nat := 40

/-- Verdict constant `#define DATA_VALID 0`. -/
def DATA_VALID : Nat := 0

/-- Verdict constant `#define DATA_PARITY_ERROR 1`. -/
def DATA_PARITY_ERROR : Nat := 1

/-- Verdict constant `#define DATA_INCOMPLETE_DATA 2`. -/
def DATA_INCOMPLETE_DATA : Nat := 2

/-- The measurement window `am2301_interrupt_data_t`; the two arrays are indexed by
`Fin TIMESTAMPS`. -/
structure am2301_interrupt_data_t where
  bitcounter : Nat
  zero_bit_limit : Nat
  humidity_int : Nat
  temperature_int : Nat
  last_timestamp : Nat
  parity : Nat
  data_validity : Nat
  timestamps : Fin TIMESTAMPS → Nat
  abs_time : Fin TIMESTAMPS → Nat

/-! ## am2301.c -/

/-- Window armed by `start_am2301_measurement`: `memset` to zero, then
`zero_bit_limit = 180`.  The previous content of the global is overwritten. -/
def start_am2301_measurement (_interrupt_data : am2301_interrupt_data_t) :
    am2301_interrupt_data_t :=
  { bitcounter := 0
    zero_bit_limit := 180
    humidity_int := 0
    temperature_int := 0
    last_timestamp := 0
    parity := 0
    data_validity := 0
    timestamps := fun _ => 0
    abs_time := fun _ => 0 }

/-- The `uint16_t time_difference` computed by the capture handler from the previous
timestamp and the captured one (both `uint16_t`, arithmetic modulo `2^16`). -/
def time_difference (last_timestamp timestamp : Nat) : Nat :=
  if timestamp > last_timestamp then
    (timestamp - last_timestamp) % 65536
  else
    (65536 + 20000 - (last_timestamp - timestamp)) % 65536

/-- Handler `ISR(TIMER1_CAPT_vect)`; `ICR1` is the value of the capture register. -/
def ISR_TIMER1_CAPT (interrupt_data : am2301_interrupt_data_t) (ICR1 : Nat) :
    am2301_interrupt_data_t :=
  let bitcounter := (interrupt_data.bitcounter + 1) % 256
  let d := { interrupt_data with bitcounter := bitcounter }
  if h1 : bitcounter < 3 then
    { d with last_timestamp := ICR1 }
  else if h2 : bitcounter > 42 then
    d
  else
    let timestamp := ICR1
    let td := time_difference d.last_timestamp timestamp
    { d with
      last_timestamp := timestamp
      timestamps := Function.update d.timestamps ⟨bitcounter - 3, by show bitcounter - 3 < 40; omega⟩ td }

/-- The array write of `ISR(TIMER1_CAPT_vect)`: the value of the index expression
`interrupt_data.bitcounter - 3` (an `int` in C) and the interval stored there, or `none`
on the two paths that return without the assignment to `timestamps[]`. -/
def ISR_TIMER1_CAPT_write (interrupt_data : am2301_interrupt_data_t) (ICR1 : Nat) :
    Option (Int × Nat) :=
  let bitcounter := (interrupt_data.bitcounter + 1) % 256
  if bitcounter < 3 then
    none
  else if bitcounter > 42 then
    none
  else
    some ((bitcounter : Int) - 3, time_difference interrupt_data.last_timestamp ICR1)

/-- The handler run once per captured timestamp, in order. -/
def capture_edges (interrupt_data : am2301_interrupt_data_t) (edges : List Nat) :
    am2301_interrupt_data_t :=
  edges.foldl ISR_TIMER1_CAPT interrupt_data

/-- Read of `data->timestamps[i]`. -/
def read_timestamp (data : am2301_interrupt_data_t) (i : Nat) : Nat :=
  if h : i < TIMESTAMPS then data.timestamps ⟨i, h⟩ else 0

/-- Body of the three decoding loops of `calculate_am2301_data`: one shift of the
`uint16_t conversion`, with a one shifted in when the interval is above the limit. -/
def decode_step (data : am2301_interrupt_data_t) (conversion i : Nat) : Nat :=
  if read_timestamp data i > data.zero_bit_limit then
    ((conversion <<< 1) ||| 1) % 65536
  else
    (conversion <<< 1) % 65536

/-- Loop `for (i = first; i < first + count; i++)` over `decode_step`. -/
def decode_loop (data : am2301_interrupt_data_t) (first count conversion : Nat) : Nat :=
  (List.range' first count).foldl (decode_step data) conversion

/-- What `calculate_am2301_data` leaves in its locals `parity` and `conversion` when it
reaches the `return;` that follows the third loop. -/
def calculate_am2301_locals (data : am2301_interrupt_data_t) : Nat × Nat :=
  let conversion := decode_loop data 16 16 0
  let parity := 0
  (parity, decode_loop data 32 8 conversion)

/-- Function `calculate_am2301_data`.  The third loop only changes the local
`conversion`, and the `return;` after it ends the function before the checksum test. -/
def calculate_am2301_data (data : am2301_interrupt_data_t) : am2301_interrupt_data_t :=
  if data.bitcounter < 43 then
    { data with data_validity := DATA_INCOMPLETE_DATA }
  else
    let conversion := decode_loop data 0 16 0
    let data := { data with humidity_int := conversion }
    let conversion := decode_loop data 16 16 0
    { data with temperature_int := conversion }

/-- The byte `temp_parity` of the checksum test that follows the `return;` of
`calculate_am2301_data` (source line 214, `uint8_t` arithmetic). -/
def temp_parity (data : am2301_interrupt_data_t) : Nat :=
  ((data.humidity_int >>> 8) + (data.humidity_int &&& 0xff) +
    (data.temperature_int >>> 8) + (data.temperature_int &&& 0xff)) % 256

/-- Checksum byte carried by the intervals 32..39, most significant bit first. -/
def received_checksum (data : am2301_interrupt_data_t) : Nat :=
  decode_loop data 32 8 0

/-- What `get_am2301_temperature` prints into the caller's buffer: the format
`"Temp: %.1f"` with its argument, the text `"Temp: <parity>"`, or `"Temp: <no data>"`.
The argument is kept as the exact quotient of the `float` division. -/
inductive temperature_text where
  | Temp (value : ℚ)
  | parity_text
  | no_data_text
  deriving DecidableEq

/-- Function `get_am2301_temperature`: the window after the call and the text printed. -/
def get_am2301_temperature (interrupt_data : am2301_interrupt_data_t) :
    am2301_interrupt_data_t × temperature_text :=
  let interrupt_data := calculate_am2301_data interrupt_data
  if interrupt_data.data_validity = DATA_VALID then
    if (interrupt_data.temperature_int &&& 0x8000) = 0x8000 then
      (interrupt_data,
        temperature_text.Temp (((interrupt_data.temperature_int &&& 0x7fff : Nat) : ℚ) / (-10)))
    else
      (interrupt_data, temperature_text.Temp ((interrupt_data.temperature_int : ℚ) / 10))
  else if interrupt_data.data_validity = DATA_PARITY_ERROR then
    (interrupt_data, temperature_text.parity_text)
  else
    (interrupt_data, temperature_text.no_data_text)

/-! ## i2c.h -/

/-- Status code `TWI_MSS_START_TRANSMITTED`. -/
def TWI_MSS_START_TRANSMITTED : Nat := 0x08

/-- Status code `TWI_MSS_REPEATED_START_TRANSMITTED`. -/
def TWI_MSS_REPEATED_START_TRANSMITTED : Nat := 0x10

/-- Status code `TWI_MSS_SLA_W_TRANSMITTED_ACK_RECEIVED`. -/
def TWI_MSS_SLA_W_TRANSMITTED_ACK_RECEIVED : Nat := 0x18

/-- Status code `TWI_MSS_DATA_TRANSMITTED_ACK_RECEIVED`. -/
def TWI_MSS_DATA_TRANSMITTED_ACK_RECEIVED : Nat := 0x28

/-- Phases of the handler, `twi_i2c_isr_states_t`. -/
inductive twi_i2c_isr_states_t where
  | WR_START_SENDING
  | WR_SLA_SENDING
  | WR_DATA_SENDING
  | WR_STOP_SENDING
  | WR_ERROR
  | RD_START_SENDING
  | RD_SLA_SENDING
  | RD_DATA_RECEIVING
  deriving DecidableEq, Repr

open twi_i2c_isr_states_t

/-- Transaction record `twi_i2c_state_t`; `data_ptr` is an address of the byte memory. -/
structure twi_i2c_state_t where
  state : twi_i2c_isr_states_t
  address : Nat
  data_length : Nat
  data_ptr : Nat
  status : Nat
  deriving DecidableEq, Repr

/-! ## i2c.c -/

/-- Function `twi_error`: stores the code in `i2c_state.status` and nothing else. -/
def twi_error (i2c_state : twi_i2c_state_t) (errorcode : Nat) : twi_i2c_state_t :=
  { i2c_state with status := errorcode }

/-- Control register value `(1 << TWINT) | (1 << TWSTA) | (1 << TWIE) | (1 << TWEN)`
with the ATmega328P bit numbers TWINT = 7, TWSTA = 5, TWEN = 2, TWIE = 0. -/
def TWCR_START : Nat := 0xA5

/-- Control register value `(1 << TWINT) | (1 << TWEN) | (1 << TWIE)`. -/
def TWCR_CONTINUE : Nat := 0x85

/-- Control register value `(1 << TWINT) | (1 << TWEN) | (1 << TWSTO)`, TWSTO = 4:
the stop condition. -/
def TWCR_STOP : Nat := 0x94

/-- Function `twi_send_command`; the write of `TWCR_START` to the control register
requests the start condition. -/
def twi_send_command (i2c_state : twi_i2c_state_t) (address length data : Nat) :
    twi_i2c_state_t :=
  { i2c_state with
    address := address
    data_length := length
    data_ptr := data
    state := WR_START_SENDING }

/-- Effect of one run of the TWI handler: the transaction record, and the values it
wrote to the data register and to the control register, if it wrote them. -/
structure twi_isr_effect where
  i2c_state : twi_i2c_state_t
  TWDR : Option Nat
  TWCR : Option Nat
  deriving DecidableEq, Repr

/-- Handler `ISR(TWI_vect)`; `memory` is the byte memory `data_ptr` points into and
`TWSR` the value of the status register. -/
def ISR_TWI (memory : Nat → Nat) (i2c_state : twi_i2c_state_t) (TWSR : Nat) :
    twi_isr_effect :=
  match i2c_state.state with
  | WR_START_SENDING =>
    if (TWSR &&& 0xF8) ≠ TWI_MSS_START_TRANSMITTED ∧
        (TWSR &&& 0xF8) ≠ TWI_MSS_REPEATED_START_TRANSMITTED then
      ⟨twi_error i2c_state (TWSR &&& 0xF8), none, none⟩
    else
      ⟨{ i2c_state with state := WR_SLA_SENDING },
        some ((i2c_state.address <<< 1) % 256), some TWCR_CONTINUE⟩
  | WR_SLA_SENDING =>
    if (TWSR &&& 0xF8) ≠ TWI_MSS_SLA_W_TRANSMITTED_ACK_RECEIVED then
      ⟨twi_error i2c_state (TWSR &&& 0xF8), none, none⟩
    else
      ⟨{ i2c_state with
          data_ptr := i2c_state.data_ptr + 1
          data_length := (i2c_state.data_length + 255) % 256
          state := WR_DATA_SENDING },
        some (memory i2c_state.data_ptr), some TWCR_CONTINUE⟩
  | WR_DATA_SENDING =>
    if (TWSR &&& 0xF8) ≠ TWI_MSS_DATA_TRANSMITTED_ACK_RECEIVED then
      ⟨twi_error i2c_state (TWSR &&& 0xF8), none, none⟩
    else if i2c_state.data_length > 0 then
      ⟨{ i2c_state with
          data_ptr := i2c_state.data_ptr + 1
          data_length := (i2c_state.data_length + 255) % 256 },
        some (memory i2c_state.data_ptr), some TWCR_CONTINUE⟩
    else
      ⟨{ i2c_state with state := WR_STOP_SENDING }, none, some TWCR_STOP⟩
  | WR_STOP_SENDING => ⟨i2c_state, none, none⟩
  | WR_ERROR => ⟨i2c_state, none, none⟩
  | _ => ⟨i2c_state, none, none⟩

/-- The address that `ISR(TWI_vect)` dereferences as `*i2c_state.data_ptr` in this run,
or `none` on the paths without such a read. -/
def ISR_TWI_read (i2c_state : twi_i2c_state_t) (TWSR : Nat) : Option Nat :=
  match i2c_state.state with
  | WR_SLA_SENDING =>
    if (TWSR &&& 0xF8) ≠ TWI_MSS_SLA_W_TRANSMITTED_ACK_RECEIVED then none
    else some i2c_state.data_ptr
  | WR_DATA_SENDING =>
    if (TWSR &&& 0xF8) ≠ TWI_MSS_DATA_TRANSMITTED_ACK_RECEIVED then none
    else if i2c_state.data_length > 0 then some i2c_state.data_ptr
    else none
  | _ => none

/-- The handler run once per bus event, each event given by the status register value
it finds; the result lists the effect of every run, in order. -/
def twi_events (memory : Nat → Nat) : twi_i2c_state_t → List Nat → List twi_isr_effect
  | _, [] => []
  | i2c_state, TWSR :: rest =>
    let r := ISR_TWI memory i2c_state TWSR
    r :: twi_events memory r.i2c_state rest

/-- The handler run once per bus event; the result lists, for every run, the transaction
record it found and the status register value. -/
def twi_steps (memory : Nat → Nat) :
    twi_i2c_state_t → List Nat → List (twi_i2c_state_t × Nat)
  | _, [] => []
  | i2c_state, TWSR :: rest =>
    (i2c_state, TWSR) :: twi_steps memory (ISR_TWI memory i2c_state TWSR).i2c_state rest

/-- State in which the wait `poll_for_twi_transmitted` is left: the transaction record,
the bus events still to come, the bytes the handler wrote to the data register during
the wait, and whether the loop ended.  `transmitted = false` means that no bus event is
left while the state is not `WR_STOP_SENDING`: the loop spins for ever. -/
structure twi_poll where
  i2c_state : twi_i2c_state_t
  events : List Nat
  TWDR : List Nat
  transmitted : Bool
  deriving DecidableEq, Repr

/-- Function `poll_for_twi_transmitted`: `while (i2c_state.state != WR_STOP_SENDING);`
with the TWI handler run on every bus event that arrives during the loop. -/
def poll_for_twi_transmitted (memory : Nat → Nat) :
    twi_i2c_state_t → List Nat → twi_poll
  | i2c_state, [] => ⟨i2c_state, [], [], decide (i2c_state.state = WR_STOP_SENDING)⟩
  | i2c_state, TWSR :: rest =>
    if i2c_state.state = WR_STOP_SENDING then
      ⟨i2c_state, TWSR :: rest, [], true⟩
    else
      let r := ISR_TWI memory i2c_state TWSR
      let p := poll_for_twi_transmitted memory r.i2c_state rest
      { p with TWDR := r.TWDR.toList ++ p.TWDR }

/-! ## lcd_with_i2c.c -/

/-- One call `twi_send_command(address, length, &lcd_i2c_byte)`: its arguments and the
content of `lcd_i2c_byte` at the call. -/
structure lcd_bus_write where
  address : Nat
  length : Nat
  lcd_i2c_byte : Nat
  deriving DecidableEq, Repr

/-- Outcome of one call of `send_i2c_lcd_command_4bit_mode`: the bus writes submitted, the
bytes the handler wrote to the data register, and whether the function returned
(`false`: it is stuck in one of its waits). -/
structure lcd_command_run where
  writes : List lcd_bus_write
  TWDR : List Nat
  returned : Bool
  deriving DecidableEq, Repr

/-- Function `send_i2c_lcd_command_4bit_mode`, run against the bus events to come.
`memory` is the RAM, `lcd_i2c_byte_ptr` the address of the global `lcd_i2c_byte`,
`lcd_backlight` the global of that name and `i2c_state` the transaction record at the
call; each `twi_send_command` is followed by the blocking `poll_for_twi_transmitted`. -/
def send_i2c_lcd_command_4bit_mode (memory : Nat → Nat)
    (lcd_i2c_byte_ptr lcd_backlight : Nat) (i2c_state : twi_i2c_state_t)
    (events : List Nat) (address rs data : Nat) : lcd_command_run :=
  let lcd_i2c_byte := data &&& 0xF0
  let lcd_i2c_byte := (lcd_i2c_byte ||| (lcd_backlight <<< 3)) % 256
  let lcd_i2c_byte := lcd_i2c_byte ||| (rs &&& 1)
  let lcd_i2c_byte := lcd_i2c_byte ||| (1 <<< 2)
  let write1 : lcd_bus_write := ⟨address, 1, lcd_i2c_byte⟩
  let poll1 := poll_for_twi_transmitted (Function.update memory lcd_i2c_byte_ptr lcd_i2c_byte)
    (twi_send_command i2c_state address 1 lcd_i2c_byte_ptr) events
  if poll1.transmitted = false then ⟨[write1], poll1.TWDR, false⟩ else
  let lcd_i2c_byte := lcd_i2c_byte ^^^ 0x4
  let write2 : lcd_bus_write := ⟨address, 1, lcd_i2c_byte⟩
  let poll2 := poll_for_twi_transmitted (Function.update memory lcd_i2c_byte_ptr lcd_i2c_byte)
    (twi_send_command poll1.i2c_state address 1 lcd_i2c_byte_ptr) poll1.events
  if poll2.transmitted = false then
    ⟨[write1, write2], poll1.TWDR ++ poll2.TWDR, false⟩ else
  let lcd_i2c_byte := (data <<< 4) &&& 0xf0
  let lcd_i2c_byte := (lcd_i2c_byte ||| (lcd_backlight <<< 3)) % 256
  let lcd_i2c_byte := lcd_i2c_byte ||| (rs &&& 1)
  let lcd_i2c_byte := lcd_i2c_byte ||| 0x4
  let write3 : lcd_bus_write := ⟨address, 1, lcd_i2c_byte⟩
  let poll3 := poll_for_twi_transmitted (Function.update memory lcd_i2c_byte_ptr lcd_i2c_byte)
    (twi_send_command poll2.i2c_state address 1 lcd_i2c_byte_ptr) poll2.events
  if poll3.transmitted = false then
    ⟨[write1, write2, write3], poll1.TWDR ++ poll2.TWDR ++ poll3.TWDR, false⟩ else
  let lcd_i2c_byte := lcd_i2c_byte ^^^ 0x4
  let write4 : lcd_bus_write := ⟨address, 1, lcd_i2c_byte⟩
  let poll4 := poll_for_twi_transmitted (Function.update memory lcd_i2c_byte_ptr lcd_i2c_byte)
    (twi_send_command poll3.i2c_state address 1 lcd_i2c_byte_ptr) poll3.events
  ⟨[write1, write2, write3, write4],
    poll1.TWDR ++ poll2.TWDR ++ poll3.TWDR ++ poll4.TWDR, poll4.transmitted⟩

/-! ## timer.h -/

/-- Compare value `#define OCR_LIMIT 20000` that `init_timer` writes to `OCR1A`. -/
def OCR_LIMIT : Nat := 20000

/-! ## timer.c -/

/-- Handler `ISR(TIMER1_COMPA_vect)`: `system_clock++` on a `uint32_t`. -/
def ISR_TIMER1_COMPA (system_clock : Nat) : Nat :=
  (system_clock + 1) % 4294967296

/-- Cause of a wake-up from `sleep_mode()`: the tick interrupt or any other one. -/
inductive wakeup where
  | tick
  | other
  deriving DecidableEq, Repr

/-- Value of `system_clock` after a wake-up. -/
def wake (system_clock : Nat) : wakeup → Nat
  | wakeup.tick => ISR_TIMER1_COMPA system_clock
  | wakeup.other => system_clock

/-- State in which `delay_seconds` returns: how often it called `sleep_mode()` and the
value of `system_clock`. -/
structure delay_return where
  sleeps : Nat
  system_clock : Nat
  deriving DecidableEq, Repr

/-- The `while (1)` loop of `delay_seconds`, run against the wake-ups still to come;
`none` when they are used up while the processor is asleep in the loop. -/
def delay_seconds_loop (expiration_time : Nat) :
    List wakeup → Nat → Nat → Option delay_return
  | [], system_clock, sleeps =>
    if system_clock = expiration_time then some ⟨sleeps, system_clock⟩ else none
  | w :: rest, system_clock, sleeps =>
    if system_clock = expiration_time then some ⟨sleeps, system_clock⟩
    else delay_seconds_loop expiration_time rest (wake system_clock w) (sleeps + 1)

/-- Function `delay_seconds`, called when the tick counter is `system_clock`. -/
def delay_seconds (delay_value system_clock : Nat) (wakeups : List wakeup) :
    Option delay_return :=
  let current_system_clock := system_clock
  let expiration_time := ((delay_value * 100) % 4294967296 + current_system_clock) % 4294967296
  if 0 = delay_value then
    some ⟨0, system_clock⟩
  else
    delay_seconds_loop expiration_time wakeups system_clock 0

/-- The `uint16_t expiration_time` of `delay_microseconds`. -/
def expiration_time (counter_value delay_value : Nat) : Nat :=
  (counter_value + (2 * delay_value) % 65536) % 65536

/-- The `uint16_t expiration_time_upper_limit` of `delay_microseconds`. -/
def expiration_time_upper_limit (counter_value delay_value : Nat) : Nat :=
  (expiration_time counter_value delay_value + 50) % 65536

/-- Exit test of the polling loop of `delay_microseconds` that was entered when the timer
register read `counter_value`; the test reads the register up to twice, `TCNT1_a` then
`TCNT1_b`. -/
def delay_microseconds_exit (counter_value delay_value TCNT1_a TCNT1_b : Nat) : Bool :=
  let expiration_time := expiration_time counter_value delay_value
  let expiration_time_upper_limit := expiration_time_upper_limit counter_value delay_value
  if expiration_time_upper_limit > expiration_time then
    decide (TCNT1_a ≥ expiration_time) && decide (TCNT1_b < expiration_time_upper_limit)
  else
    decide (TCNT1_a < expiration_time_upper_limit) ||
      decide (TCNT1_b ≥ expiration_time_upper_limit)

/-- Timer 1 as `init_timer` sets it up (CTC mode, `OCR1A = OCR_LIMIT`): the value of
`TCNT1` `k` timer clocks after it read `counter_value`; the register counts up to
`OCR_LIMIT` and goes on from 0. -/
def TCNT1_after (counter_value k : Nat) : Nat :=
  (counter_value + k) % (OCR_LIMIT + 1)

/-! ## Specification-side notions -/

/-- Value of the bits `b first, ..., b (first + 15)` read as a 16-bit number, most
significant bit first. -/
def msb_first (b : Nat → Bool) (first : Nat) : Nat :=
  ∑ j in Finset.range 16, (if b (first + j) then 1 else 0) * 2 ^ (15 - j)

/-- Number of tick interrupts among the first `j` wake-ups. -/
def ticks_within (wakeups : List wakeup) (j : Nat) : Nat :=
  (wakeups.take j).count wakeup.tick

/-- Membership of the 16-bit value `v` in the window `[target, target + 50)` of register
values, taken modulo `2^16`. -/
def in_guard_window (target v : Nat) : Bool :=
  decide ((v + 65536 - target % 65536) % 65536 < 50)

/-- A window with every field zero, standing for the content before arming. -/
def zero_window : am2301_interrupt_data_t :=
  ⟨0, 0, 0, 0, 0, 0, 0, fun _ => 0, fun _ => 0⟩

/-- A window as the hardware can leave it: armed, then 42 capture interrupts with the
timestamps `100, 600, 1100, ...` (intervals of 500 timer counts, all bits one). -/
def window_after_42_edges : am2301_interrupt_data_t :=
  capture_edges
    (start_am2301_measurement zero_window)
    ((List.range 42).map (fun k => (100 + 500 * k) % 20000))

/-- Capture timestamps of one sensor frame: two handshake edges, 40 data edges carrying
humidity `0x0292`, temperature `0x010D` and checksum `0xA2` (150 counts for a zero, 240
for a one, the timer wrapping at 20000 on the way), and one trailing edge. -/
def frame_edges : List Nat :=
  [19000, 19320, 19470, 19620, 19770, 19920, 70, 220, 460, 610, 850, 1000, 1150, 1390,
    1540, 1690, 1930, 2080, 2230, 2380, 2530, 2680, 2830, 2980, 3130, 3370, 3520, 3670,
    3820, 3970, 4210, 4450, 4600, 4840, 5080, 5230, 5470, 5620, 5770, 5920, 6160, 6310,
    6460]

/-- The 40 bits carried by `frame_edges`. -/
def frame_bits (i : Nat) : Bool :=
  [false, false, false, false, false, false, true, false, true, false, false, true, false,
    false, true, false, false, false, false, false, false, false, false, true, false, false,
    false, false, true, true, false, true, true, false, true, false, false, false, true,
    false].getD i false

/-- The frame of `frame_edges` with the checksum byte replaced by `0x00`. -/
def bad_checksum_edges : List Nat :=
  [19000, 19320, 19470, 19620, 19770, 19920, 70, 220, 460, 610, 850, 1000, 1150, 1390,
    1540, 1690, 1930, 2080, 2230, 2380, 2530, 2680, 2830, 2980, 3130, 3370, 3520, 3670,
    3820, 3970, 4210, 4450, 4600, 4840, 4990, 5140, 5290, 5440, 5590, 5740, 5890, 6040,
    6190]

/-- The 43 edges of `frame_edges` followed by 256 further edges, 300 timer counts apart:
299 capture interrupts in one window. -/
def long_edges : List Nat :=
  frame_edges ++ (List.range 256).map (fun k => (6460 + 300 * (k + 1)) % 20000)

/-- Wake-ups of one second: 100 tick interrupts with an unrelated interrupt after every
second one, 150 wake-ups in all. -/
def one_second_wakeups : List wakeup :=
  (List.range 150).map (fun k => if k % 3 = 2 then wakeup.other else wakeup.tick)

/-- The window left by the 43 edges of `bad_checksum_edges`. -/
def bad_checksum_window : am2301_interrupt_data_t :=
  capture_edges (start_am2301_measurement zero_window) bad_checksum_edges

/-- A two-byte transaction to the display at address `0x3f`, payload at address 100. -/
def two_byte_command : twi_i2c_state_t :=
  twi_send_command ⟨WR_STOP_SENDING, 0, 0, 0, 0⟩ 0x3f 2 100

/-- A byte memory holding `0xAB` at address 100 and `0xCD` everywhere else. -/
def payload_memory (a : Nat) : Nat :=
  if a = 100 then 0xAB else 0xCD

/-- The bit `b_i` decoded from interval `i`: one when the interval is strictly above the
limit, zero otherwise. -/
def decoded_bit (data : am2301_interrupt_data_t) (i : Nat) : Nat :=
  if read_timestamp data i > data.zero_bit_limit then 1 else 0

/-- A complete window whose temperature bits spell `0x8019` (intervals 16, 27, 28 and 31
long, all others short). -/
def cold_window : am2301_interrupt_data_t :=
  ⟨43, 180, 0, 0, 0, 0, 0,
    fun i => if i.val = 16 ∨ i.val = 27 ∨ i.val = 28 ∨ i.val = 31 then 240 else 150,
    fun _ => 0⟩

/-- A complete window whose interval 0 equals the limit 180 and whose interval 1 is one
count longer. -/
def threshold_window : am2301_interrupt_data_t :=
  ⟨43, 180, 0, 0, 0, 0, 0, fun i => if i.val = 0 then 180 else if i.val = 1 then 181 else 0,
    fun _ => 0⟩

/-- The transaction of `two_byte_command` after its start condition was acknowledged. -/
def address_phase : twi_i2c_state_t :=
  (ISR_TWI payload_memory two_byte_command 0x08).i2c_state

/-- States of a write of `n` bytes from address `data` that is under way: before the
address acknowledge nothing is consumed, in the data phase `data_ptr` and `data_length`
together still cover the end of the payload, and after the stop nothing is left to do. -/
def twi_in_transaction (n data : Nat) (st : twi_i2c_state_t) : Prop :=
  (st.state = WR_START_SENDING ∧ st.data_length = n ∧ st.data_ptr = data) ∨
    (st.state = WR_SLA_SENDING ∧ st.data_length = n ∧ st.data_ptr = data) ∨
    (st.state = WR_DATA_SENDING ∧ st.data_ptr + st.data_length = data + n ∧
      data < st.data_ptr) ∨
    st.state = WR_STOP_SENDING

/-- The byte that carries the high nibble of `d` to the display: data bits 7..4, the
backlight bit 3, EN (bit 2) set, RW (bit 1) clear, RS in bit 0. -/
def lcd_high_byte (d bl rs : Nat) : Nat :=
  (d &&& 0xF0) ||| (bl <<< 3) ||| (rs &&& 1) ||| 0x04

/-- The byte that carries the low nibble of `d` to the display. -/
def lcd_low_byte (d bl rs : Nat) : Nat :=
  ((d <<< 4) &&& 0xF0) ||| (bl <<< 3) ||| (rs &&& 1) ||| 0x04

/-- The four one-byte bus writes of one LCD command, in order: each nibble byte with EN
set, then the same byte with EN cleared. -/
def lcd_four_writes (address d bl rs : Nat) : List lcd_bus_write :=
  [⟨address, 1, lcd_high_byte d bl rs⟩, ⟨address, 1, lcd_high_byte d bl rs &&& 0xFB⟩,
    ⟨address, 1, lcd_low_byte d bl rs⟩, ⟨address, 1, lcd_low_byte d bl rs &&& 0xFB⟩]

/-- Bus events of four acknowledged one-byte transactions (start, address and data
acknowledge each), followed by `rest`. -/
def four_acknowledged (s1 s2 s3 s4 : Nat) (rest : List Nat) : List Nat :=
  s1 :: 0x18 :: 0x28 :: s2 :: 0x18 :: 0x28 :: s3 :: 0x18 :: 0x28 :: s4 :: 0x18 :: 0x28 :: rest

/-- A bus on which no device answers: the start condition goes out and every later event
reports the address as not acknowledged. -/
def silent_bus : List Nat :=
  0x08 :: List.replicate 5 0x20

/-! ## Auxiliary facts about the decoding loops -/

/-- The decoding loops read only `timestamps` and `zero_bit_limit`. -/
theorem decode_loop_congr (a b : am2301_interrupt_data_t)
    (ht : a.timestamps = b.timestamps) (hz : a.zero_bit_limit = b.zero_bit_limit) :
    decode_loop a = decode_loop b := by
  have hstep : decode_step a = decode_step b := by
    funext c i
    simp [decode_step, read_timestamp, ht, hz]
  funext first count conversion
  simp [decode_loop, hstep]

/-- Shifting left by one and setting bit 0 is doubling plus one. -/
theorem shiftLeft_one_or_one (c : Nat) : (c <<< 1) ||| 1 = 2 * c + 1 := by
  have h := @Nat.mul_add_lt_is_or 1 1 (by norm_num) c
  rw [Nat.shiftLeft_eq]
  simp only [pow_one] at h ⊢
  rw [Nat.mul_comm c 2]
  exact h.symm

/-- One step of a decoding loop doubles `conversion` and adds the decoded bit, as long
as the result fits 16 bits. -/
theorem decode_step_value (data : am2301_interrupt_data_t) (c i : Nat) (hc : 2 * c + 1 < 65536) :
    decode_step data c i =
      2 * c + (if read_timestamp data i > data.zero_bit_limit then 1 else 0) := by
  unfold decode_step
  by_cases hb : read_timestamp data i > data.zero_bit_limit
  · simp only [hb, if_true]
    rw [shiftLeft_one_or_one]
    exact Nat.mod_eq_of_lt hc
  · simp only [hb, if_false]
    rw [Nat.shiftLeft_eq, pow_one, Nat.mul_comm]
    exact Nat.mod_eq_of_lt (by omega)

/-- Closed form of a decoding loop: the incoming `conversion` is shifted left `count`
times and the decoded bits are appended, most significant first. -/
theorem decode_loop_value (data : am2301_interrupt_data_t) :
    ∀ (count first c : Nat), count ≤ 16 → c < 2 ^ (16 - count) →
      decode_loop data first count c =
        c * 2 ^ count +
          ∑ j in Finset.range count,
            (if read_timestamp data (first + j) > data.zero_bit_limit then 1 else 0) *
              2 ^ (count - 1 - j) := by
  intro count
  induction count with
  | zero =>
    intro first c _ _
    simp [decode_loop]
  | succ n ih =>
    intro first c hn hc
    have hpow : 2 ^ (16 - n) = 2 * 2 ^ (16 - (n + 1)) := by
      have : 16 - n = (16 - (n + 1)) + 1 := by omega
      rw [this, pow_succ, Nat.mul_comm]
    have hle : 2 ^ (16 - n) ≤ 65536 := by
      have : 2 ^ (16 - n) ≤ 2 ^ 16 := Nat.pow_le_pow_right (by norm_num) (by omega)
      simpa using this
    have hstep := decode_step_value data c first (by omega)
    have hrec : decode_loop data first (n + 1) c =
        decode_loop data (first + 1) n (decode_step data c first) := by
      simp [decode_loop, List.range'_succ]
    rw [hrec, ih (first + 1) (decode_step data c first) (by omega) (by rw [hstep]; split <;> omega)]
    rw [hstep, Finset.sum_range_succ']
    have hsum : ∑ j in Finset.range n,
          (if read_timestamp data (first + 1 + j) > data.zero_bit_limit then 1 else 0) *
            2 ^ (n - 1 - j) =
        ∑ j in Finset.range n,
          (if read_timestamp data (first + (j + 1)) > data.zero_bit_limit then 1 else 0) *
            2 ^ (n + 1 - 1 - (j + 1)) := by
      apply Finset.sum_congr rfl
      intro j _
      have e1 : first + 1 + j = first + (j + 1) := by omega
      have e2 : n + 1 - 1 - (j + 1) = n - 1 - j := by omega
      rw [e1, e2]
    rw [hsum]
    simp only [Nat.add_zero, Nat.sub_zero, Nat.add_sub_cancel, pow_succ]
    ring

/-! ## Auxiliary facts about the capture handler -/

/-- The handler increments `bitcounter` modulo 256 on every path. -/
theorem ISR_bitcounter (w : am2301_interrupt_data_t) (t : Nat) :
    (ISR_TIMER1_CAPT w t).bitcounter = (w.bitcounter + 1) % 256 := by
  unfold ISR_TIMER1_CAPT
  simp only
  split
  · rfl
  · split <;> rfl

/-- The handler never writes `zero_bit_limit`. -/
theorem ISR_zero_bit_limit (w : am2301_interrupt_data_t) (t : Nat) :
    (ISR_TIMER1_CAPT w t).zero_bit_limit = w.zero_bit_limit := by
  unfold ISR_TIMER1_CAPT
  simp only
  split
  · rfl
  · split <;> rfl

/-- Up to the 42nd edge the handler records the captured timestamp. -/
theorem ISR_last_timestamp (w : am2301_interrupt_data_t) (t : Nat)
    (h : (w.bitcounter + 1) % 256 ≤ 42) :
    (ISR_TIMER1_CAPT w t).last_timestamp = t := by
  unfold ISR_TIMER1_CAPT
  simp only
  split
  · rfl
  · split
    · omega
    · rfl

/-- The handler leaves every entry other than `bitcounter - 3` alone. -/
theorem ISR_timestamps_other (w : am2301_interrupt_data_t) (t : Nat) (i : Fin TIMESTAMPS)
    (h : (i : Nat) + 3 ≠ (w.bitcounter + 1) % 256) :
    (ISR_TIMER1_CAPT w t).timestamps i = w.timestamps i := by
  unfold ISR_TIMER1_CAPT
  simp only
  split
  · rfl
  · split
    · rfl
    · apply Function.update_noteq
      intro hi
      apply h
      have := congrArg Fin.val hi
      simp only at this
      omega

/-- On a data edge the entry `bitcounter - 3` receives the computed interval. -/
theorem ISR_timestamps_written (w : am2301_interrupt_data_t) (t : Nat) (i : Fin TIMESTAMPS)
    (h : (i : Nat) + 3 = (w.bitcounter + 1) % 256) :
    (ISR_TIMER1_CAPT w t).timestamps i = time_difference w.last_timestamp t := by
  have hi : (i : Nat) < 40 := i.isLt
  have h1 : ¬ (w.bitcounter + 1) % 256 < 3 := by omega
  have h2 : ¬ (w.bitcounter + 1) % 256 > 42 := by omega
  have hidx : i = ⟨(w.bitcounter + 1) % 256 - 3, by show _ < 40; omega⟩ := by
    apply Fin.ext
    simp only
    omega
  simp only [ISR_TIMER1_CAPT, h1, h2, dite_false]
  rw [hidx]
  simp

/-- Without wrap of the 8-bit counter, `bitcounter` counts the edges. -/
theorem capture_edges_bitcounter (ts : List Nat) :
    ∀ w : am2301_interrupt_data_t, w.bitcounter + ts.length ≤ 255 →
      (capture_edges w ts).bitcounter = w.bitcounter + ts.length := by
  induction ts with
  | nil => intro w _; rfl
  | cons t rest ih =>
    intro w h
    simp only [List.length_cons] at h
    have hb := ISR_bitcounter w t
    have hmod : (w.bitcounter + 1) % 256 = w.bitcounter + 1 := Nat.mod_eq_of_lt (by omega)
    show (capture_edges (ISR_TIMER1_CAPT w t) rest).bitcounter = _
    rw [ih (ISR_TIMER1_CAPT w t) (by rw [hb, hmod]; omega), hb, hmod, List.length_cons]
    omega

/-- Capturing edges never changes `zero_bit_limit`. -/
theorem capture_edges_zero_bit_limit (ts : List Nat) :
    ∀ w : am2301_interrupt_data_t, (capture_edges w ts).zero_bit_limit = w.zero_bit_limit := by
  induction ts with
  | nil => intro w; rfl
  | cons t rest ih =>
    intro w
    show (capture_edges (ISR_TIMER1_CAPT w t) rest).zero_bit_limit = _
    rw [ih, ISR_zero_bit_limit]

/-- An entry whose edge has passed is not written again while the counter does not wrap. -/
theorem capture_edges_keeps_written (ts : List Nat) (i : Fin TIMESTAMPS) :
    ∀ w : am2301_interrupt_data_t, (i : Nat) + 3 ≤ w.bitcounter →
      w.bitcounter + ts.length ≤ 255 →
      (capture_edges w ts).timestamps i = w.timestamps i := by
  induction ts with
  | nil => intro w _ _; rfl
  | cons t rest ih =>
    intro w hi h
    simp only [List.length_cons] at h
    have hb := ISR_bitcounter w t
    have hmod : (w.bitcounter + 1) % 256 = w.bitcounter + 1 := Nat.mod_eq_of_lt (by omega)
    show (capture_edges (ISR_TIMER1_CAPT w t) rest).timestamps i = _
    rw [ih (ISR_TIMER1_CAPT w t) (by rw [hb, hmod]; omega) (by rw [hb, hmod]; omega)]
    exact ISR_timestamps_other w t i (by omega)

/-- Entry `i` ends up holding the interval between the edges `i + 2` and `i + 3` of the
window (counted from 1), when those edges are still to come. -/
theorem capture_edges_timestamps (ts : List Nat) (i : Fin TIMESTAMPS) :
    ∀ w : am2301_interrupt_data_t, w.bitcounter ≤ (i : Nat) + 2 →
      (i : Nat) + 3 ≤ w.bitcounter + ts.length →
      w.bitcounter + ts.length ≤ 255 →
      (capture_edges w ts).timestamps i =
        time_difference
          (if (i : Nat) + 2 = w.bitcounter then w.last_timestamp
            else ts.getD ((i : Nat) + 1 - w.bitcounter) 0)
          (ts.getD ((i : Nat) + 2 - w.bitcounter) 0) := by
  have hi : (i : Nat) < 40 := i.isLt
  induction ts with
  | nil => intro w h1 h2 _; simp only [List.length_nil] at h2; omega
  | cons t rest ih =>
    intro w h1 h2 h3
    simp only [List.length_cons] at h2 h3
    have hb := ISR_bitcounter w t
    have hmod : (w.bitcounter + 1) % 256 = w.bitcounter + 1 := Nat.mod_eq_of_lt (by omega)
    show (capture_edges (ISR_TIMER1_CAPT w t) rest).timestamps i = _
    by_cases hk : (i : Nat) + 2 = w.bitcounter
    · rw [capture_edges_keeps_written rest i _ (by rw [hb, hmod]; omega)
        (by rw [hb, hmod]; omega)]
      rw [ISR_timestamps_written w t i (by omega)]
      have h0 : (i : Nat) + 2 - w.bitcounter = 0 := by omega
      simp [hk, h0]
    · rw [ih (ISR_TIMER1_CAPT w t) (by rw [hb, hmod]; omega) (by rw [hb, hmod]; omega)
        (by rw [hb, hmod]; omega)]
      rw [hb, hmod, ISR_last_timestamp w t (by omega)]
      have e2 : (i : Nat) + 2 - w.bitcounter = ((i : Nat) + 2 - (w.bitcounter + 1)) + 1 := by
        omega
      rw [e2, List.getD_cons_succ]
      by_cases hk1 : (i : Nat) + 2 = w.bitcounter + 1
      · have e0 : (i : Nat) + 1 - w.bitcounter = 0 := by omega
        simp [hk, hk1, e0]
      · have e1 : (i : Nat) + 1 - w.bitcounter = ((i : Nat) + 1 - (w.bitcounter + 1)) + 1 := by
          omega
        rw [e1, List.getD_cons_succ]
        simp [hk, hk1]

/-! ## Auxiliary facts about the waiting loop of `delay_seconds` -/

/-- No tick has been seen before the first wake-up. -/
theorem ticks_within_zero (es : List wakeup) : ticks_within es 0 = 0 := by
  simp [ticks_within]

/-- A leading tick interrupt adds one to every later count. -/
theorem ticks_within_tick (rest : List wakeup) (j : Nat) :
    ticks_within (wakeup.tick :: rest) (j + 1) = ticks_within rest j + 1 := by
  simp [ticks_within, List.take_succ_cons]

/-- A leading unrelated wake-up adds nothing to the count. -/
theorem ticks_within_other (rest : List wakeup) (j : Nat) :
    ticks_within (wakeup.other :: rest) (j + 1) = ticks_within rest j := by
  simp [ticks_within, List.take_succ_cons]

/-- The waiting loop started `K` ticks before its expiration time returns after `j`
wake-ups exactly when `j` is the first moment at which `K` ticks have been seen. -/
theorem delay_seconds_loop_spec (es : List wakeup) :
    ∀ (e clock K s : Nat) (r : delay_return), clock < 4294967296 → K < 4294967296 →
      e = (clock + K) % 4294967296 →
      (delay_seconds_loop e es clock s = some r ↔
        ∃ j, j ≤ es.length ∧ ticks_within es j = K ∧
          (∀ i, i < j → ticks_within es i < K) ∧ r = ⟨s + j, e⟩) := by
  induction es with
  | nil =>
    intro e clock K s r hc hK he
    by_cases h0 : K = 0
    · have hce : clock = e := by omega
      simp only [delay_seconds_loop, hce, if_true, Option.some.injEq, List.length_nil]
      constructor
      · intro h
        exact ⟨0, le_refl 0, by rw [ticks_within_zero, h0], by intro i hi; omega, h.symm⟩
      · rintro ⟨j, hj, _, _, hr⟩
        have : j = 0 := by omega
        subst this
        exact hr.symm
    · have hce : ¬ clock = e := by omega
      simp only [delay_seconds_loop, hce, if_false, List.length_nil]
      constructor
      · intro h; cases h
      · rintro ⟨j, hj, hcount, _, _⟩
        have : j = 0 := by omega
        subst this
        rw [ticks_within_zero] at hcount
        omega
  | cons w rest ih =>
    intro e clock K s r hc hK he
    by_cases h0 : K = 0
    · have hce : clock = e := by omega
      simp only [delay_seconds_loop, hce, if_true, Option.some.injEq]
      constructor
      · intro h
        exact ⟨0, Nat.zero_le _, by rw [ticks_within_zero, h0], by intro i hi; omega, h.symm⟩
      · rintro ⟨j, _, _, hmin, hr⟩
        have : j = 0 := by
          by_contra hj
          have := hmin 0 (by omega)
          omega
        subst this
        exact hr.symm
    · have hce : ¬ clock = e := by omega
      simp only [delay_seconds_loop, hce, if_false, List.length_cons]
      cases w with
      | tick =>
        have hclock : wake clock wakeup.tick < 4294967296 := by
          simp only [wake, ISR_TIMER1_COMPA]; omega
        have he2 : e = (wake clock wakeup.tick + (K - 1)) % 4294967296 := by
          simp only [wake, ISR_TIMER1_COMPA]; omega
        rw [ih e (wake clock wakeup.tick) (K - 1) (s + 1) r hclock (by omega) he2]
        constructor
        · rintro ⟨j, hj, hcount, hmin, hr⟩
          refine ⟨j + 1, by omega, by rw [ticks_within_tick]; omega, ?_, ?_⟩
          · intro i hi
            cases i with
            | zero => rw [ticks_within_zero]; omega
            | succ i =>
              rw [ticks_within_tick]
              have := hmin i (by omega)
              omega
          · rw [hr]
            congr 1
            omega
        · rintro ⟨j, hj, hcount, hmin, hr⟩
          cases j with
          | zero => rw [ticks_within_zero] at hcount; omega
          | succ j =>
            rw [ticks_within_tick] at hcount
            refine ⟨j, by omega, by omega, ?_, ?_⟩
            · intro i hi
              have := hmin (i + 1) (by omega)
              rw [ticks_within_tick] at this
              omega
            · rw [hr]
              congr 1
              omega
      | other =>
        have he2 : e = (wake clock wakeup.other + K) % 4294967296 := by
          simp only [wake]; exact he
        rw [ih e (wake clock wakeup.other) K (s + 1) r (by simp only [wake]; exact hc) hK he2]
        constructor
        · rintro ⟨j, hj, hcount, hmin, hr⟩
          refine ⟨j + 1, by omega, by rw [ticks_within_other]; omega, ?_, ?_⟩
          · intro i hi
            cases i with
            | zero => rw [ticks_within_zero]; omega
            | succ i =>
              rw [ticks_within_other]
              exact hmin i (by omega)
          · rw [hr]
            congr 1
            omega
        · rintro ⟨j, hj, hcount, hmin, hr⟩
          cases j with
          | zero => rw [ticks_within_zero] at hcount; omega
          | succ j =>
            rw [ticks_within_other] at hcount
            refine ⟨j, by omega, by omega, ?_, ?_⟩
            · intro i hi
              have := hmin (i + 1) (by omega)
              rw [ticks_within_other] at this
              exact this
            · rw [hr]
              congr 1
              omega

/-- The waiting loop returns as soon as the wake-ups to come hold `K` tick interrupts. -/
theorem delay_seconds_loop_returns (es : List wakeup) :
    ∀ (e clock K s : Nat), clock < 4294967296 → K < 4294967296 →
      e = (clock + K) % 4294967296 → K ≤ es.count wakeup.tick →
      ∃ r, delay_seconds_loop e es clock s = some r := by
  induction es with
  | nil =>
    intro e clock K s hc hK he hcount
    simp only [List.count_nil] at hcount
    have hce : clock = e := by omega
    exact ⟨⟨s, clock⟩, by simp [delay_seconds_loop, hce]⟩
  | cons w rest ih =>
    intro e clock K s hc hK he hcount
    by_cases h0 : K = 0
    · have hce : clock = e := by omega
      exact ⟨⟨s, clock⟩, by simp [delay_seconds_loop, hce]⟩
    · have hce : ¬ clock = e := by omega
      simp only [delay_seconds_loop, hce, if_false]
      cases w with
      | tick =>
        simp only [List.count_cons_self] at hcount
        apply ih e _ (K - 1) (s + 1)
        · simp only [wake, ISR_TIMER1_COMPA]; omega
        · omega
        · simp only [wake, ISR_TIMER1_COMPA]; omega
        · omega
      | other =>
        have hne : wakeup.tick ≠ wakeup.other := by decide
        rw [List.count_cons_of_ne hne] at hcount
        exact ih e _ K (s + 1) (by simp only [wake]; exact hc) hK (by simp only [wake]; exact he)
          hcount

/-! ## Auxiliary facts about the TWI handler -/

/-- In the data phase with `k` bytes left, `k + 1` data acknowledges keep the handler in
`WR_DATA_SENDING` for the first `k` and move it to `WR_STOP_SENDING` on the last. -/
theorem twi_data_phase (memory : Nat → Nat) (k : Nat) :
    ∀ s : twi_i2c_state_t, s.state = WR_DATA_SENDING → s.data_length = k → k < 256 →
      (twi_events memory s (List.replicate (k + 1) 0x28)).map
          (fun r => r.i2c_state.state) =
        List.replicate k WR_DATA_SENDING ++ [WR_STOP_SENDING] := by
  have hack : (0x28 &&& 0xF8) = TWI_MSS_DATA_TRANSMITTED_ACK_RECEIVED := by decide
  induction k with
  | zero =>
    intro s hs hl _
    simp [twi_events, ISR_TWI, hs, hl, hack, List.replicate]
  | succ k ih =>
    intro s hs hl hk
    have hpos : s.data_length > 0 := by omega
    have hstep : ISR_TWI memory s 0x28 =
        ⟨{ s with data_ptr := s.data_ptr + 1, data_length := (s.data_length + 255) % 256 },
          some (memory s.data_ptr), some TWCR_CONTINUE⟩ := by
      simp [ISR_TWI, hs, hack, hpos]
    rw [List.replicate_succ, twi_events]
    simp only [List.map_cons, hstep]
    have hrec := ih { s with data_ptr := s.data_ptr + 1,
                             data_length := (s.data_length + 255) % 256 }
      hs (by simp only; omega) (by omega)
    rw [hrec, hs, List.replicate_succ]
    rfl

/-! ## The decode routine on short windows (C3) -/

/-- C3: for every window with `bitcounter < 43`, whatever the intervals are,
`calculate_am2301_data` sets `data_validity` to `DATA_INCOMPLETE_DATA`. -/
theorem calculate_incomplete_below_43 (data : am2301_interrupt_data_t)
    (h : data.bitcounter < 43) :
    (calculate_am2301_data data).data_validity = DATA_INCOMPLETE_DATA := by
  simp [calculate_am2301_data, h]

set_option maxRecDepth 100000 in
/-- Witness for C3: the window left by 42 capture interrupts has `bitcounter = 42` and is
reported incomplete. -/
theorem calculate_incomplete_below_43_witness :
    window_after_42_edges.bitcounter < 43 ∧
      (calculate_am2301_data window_after_42_edges).data_validity = DATA_INCOMPLETE_DATA :=
  ⟨by decide!, calculate_incomplete_below_43 window_after_42_edges (by decide!)⟩

/-! ## The wrap-corrected interval of a data edge (C4) -/

/-- C4: on a data edge (`bitcounter` after the increment in 3..42) with previous and
captured timestamps both below 20000, the handler stores `T - L` when `T > L` and
`20000 - (L - T)` otherwise, at index `bitcounter - 3`; the stored value lies in
1..20000, is congruent to `T - L` modulo 20000, and is 15 for `L = 20000 - 5`, `T = 10`. -/
theorem capture_stores_wrapped_interval (w : am2301_interrupt_data_t) (T : Nat)
    (hlo : 3 ≤ (w.bitcounter + 1) % 256) (hhi : (w.bitcounter + 1) % 256 ≤ 42)
    (hL : w.last_timestamp < 20000) (hT : T < 20000) :
    read_timestamp (ISR_TIMER1_CAPT w T) ((w.bitcounter + 1) % 256 - 3) =
        (if T > w.last_timestamp then T - w.last_timestamp
          else 20000 - (w.last_timestamp - T)) ∧
      1 ≤ read_timestamp (ISR_TIMER1_CAPT w T) ((w.bitcounter + 1) % 256 - 3) ∧
      read_timestamp (ISR_TIMER1_CAPT w T) ((w.bitcounter + 1) % 256 - 3) ≤ 20000 ∧
      ((read_timestamp (ISR_TIMER1_CAPT w T) ((w.bitcounter + 1) % 256 - 3) : Nat) : Int)
        ≡ (T : Int) - (w.last_timestamp : Int) [ZMOD 20000] ∧
      (w.last_timestamp = 20000 - 5 → T = 10 →
        read_timestamp (ISR_TIMER1_CAPT w T) ((w.bitcounter + 1) % 256 - 3) = 15) := by
  have hidx : (w.bitcounter + 1) % 256 - 3 < TIMESTAMPS := by
    show (w.bitcounter + 1) % 256 - 3 < 40
    omega
  have hstored : read_timestamp (ISR_TIMER1_CAPT w T) ((w.bitcounter + 1) % 256 - 3) =
      time_difference w.last_timestamp T := by
    have h1 : ¬ (w.bitcounter + 1) % 256 < 3 := by omega
    have h2 : ¬ (w.bitcounter + 1) % 256 > 42 := by omega
    simp [read_timestamp, ISR_TIMER1_CAPT, h1, h2, hidx]
  rw [hstored]
  unfold time_difference
  by_cases hcmp : T > w.last_timestamp
  · simp only [hcmp, if_true]
    refine ⟨by omega, by omega, by omega, ?_, by omega⟩
    unfold Int.ModEq
    omega
  · simp only [hcmp, if_false]
    refine ⟨by omega, by omega, by omega, ?_, by omega⟩
    unfold Int.ModEq
    omega

/-- Witness for C4: the third edge of a window whose previous timestamp is `20000 - 5`,
captured at 10, stores the interval 15. -/
theorem capture_stores_wrapped_interval_witness :
    read_timestamp
      (ISR_TIMER1_CAPT ⟨2, 180, 0, 0, 20000 - 5, 0, 0, fun _ => 0, fun _ => 0⟩ 10) 0 = 15 :=
  (capture_stores_wrapped_interval ⟨2, 180, 0, 0, 20000 - 5, 0, 0, fun _ => 0, fun _ => 0⟩ 10
    (by decide) (by decide) (by decide) (by decide)).2.2.2.2 rfl rfl

/-! ## Idempotence of the decode routine (C10) -/

/-- C10: `calculate_am2301_data` is idempotent: applied twice to any window it yields the
same window as applied once. -/
theorem calculate_idempotent (w : am2301_interrupt_data_t) :
    calculate_am2301_data (calculate_am2301_data w) = calculate_am2301_data w := by
  by_cases h : w.bitcounter < 43
  · simp [calculate_am2301_data, h]
  · have h1 : ∀ x : Nat, decode_loop { w with humidity_int := x } = decode_loop w :=
      fun x => decode_loop_congr _ _ rfl rfl
    have h2 : ∀ x y : Nat,
        decode_loop { w with humidity_int := x, temperature_int := y } = decode_loop w :=
      fun x y => decode_loop_congr _ _ rfl rfl
    simp [calculate_am2301_data, h, h1, h2]

/-! ## Capture followed by decode (C1) -/

/-- C1, as amended: from a freshly armed window, after at least 43 and at most 255 capture
interrupts whose 40 data-edge intervals are each strictly above or strictly below the
limit 180, `calculate_am2301_data` leaves in `humidity_int` the bits 0..15 and in
`temperature_int` the bits 16..31, most significant bit first. -/
theorem capture_then_calculate_decodes (old : am2301_interrupt_data_t) (ts : List Nat)
    (bits : Nat → Bool) (hmin : 43 ≤ ts.length) (hmax : ts.length ≤ 255)
    (hbits : ∀ i, i < 40 →
      (bits i = true → time_difference (ts.getD (i + 1) 0) (ts.getD (i + 2) 0) > 180) ∧
      (bits i = false → time_difference (ts.getD (i + 1) 0) (ts.getD (i + 2) 0) < 180)) :
    (calculate_am2301_data
        (capture_edges (start_am2301_measurement old) ts)).humidity_int = msb_first bits 0 ∧
      (calculate_am2301_data
        (capture_edges (start_am2301_measurement old) ts)).temperature_int =
          msb_first bits 16 := by
  have hbc : (capture_edges (start_am2301_measurement old) ts).bitcounter = ts.length := by
    rw [capture_edges_bitcounter ts _ (by simp [start_am2301_measurement]; omega)]
    simp [start_am2301_measurement]
  have hz : (capture_edges (start_am2301_measurement old) ts).zero_bit_limit = 180 := by
    rw [capture_edges_zero_bit_limit]
    rfl
  have hts : ∀ i, i < 40 →
      read_timestamp (capture_edges (start_am2301_measurement old) ts) i =
        time_difference (ts.getD (i + 1) 0) (ts.getD (i + 2) 0) := by
    intro i hi
    have hi2 : i < TIMESTAMPS := hi
    have h := capture_edges_timestamps ts ⟨i, hi2⟩ (start_am2301_measurement old)
      (by simp [start_am2301_measurement])
      (by simp [start_am2301_measurement]; omega)
      (by simp [start_am2301_measurement]; omega)
    simp only [read_timestamp, hi2, dite_true]
    rw [h]
    simp [start_am2301_measurement]
  have hsum : ∀ first, first + 16 ≤ 40 →
      decode_loop (capture_edges (start_am2301_measurement old) ts) first 16 0 =
        msb_first bits first := by
    intro first hfirst
    rw [decode_loop_value _ 16 first 0 (by omega) (by norm_num)]
    unfold msb_first
    rw [Nat.zero_mul, Nat.zero_add]
    apply Finset.sum_congr rfl
    intro j hj
    have hj16 : j < 16 := Finset.mem_range.mp hj
    have hb := hbits (first + j) (by omega)
    rw [hts (first + j) (by omega), hz]
    cases hbit : bits (first + j) with
    | true =>
      have hgt := hb.1 hbit
      rw [if_pos hgt]
      rfl
    | false =>
      have := hb.2 hbit
      have hn : ¬ time_difference (ts.getD (first + j + 1) 0) (ts.getD (first + j + 2) 0) >
          180 := by omega
      rw [if_neg hn]
      rfl
  have hnot : ¬ (capture_edges (start_am2301_measurement old) ts).bitcounter < 43 := by
    rw [hbc]
    omega
  have hcongr : ∀ x : Nat,
      decode_loop { capture_edges (start_am2301_measurement old) ts with humidity_int := x } =
        decode_loop (capture_edges (start_am2301_measurement old) ts) :=
    fun x => decode_loop_congr _ _ rfl rfl
  simp only [calculate_am2301_data, hnot, if_false, hcongr]
  exact ⟨hsum 0 (by omega), hsum 16 (by omega)⟩

set_option maxRecDepth 100000 in
/-- Witness for C1: the 43 edges of `frame_edges` decode to the bits of `frame_bits`,
that is humidity `0x0292` and temperature `0x010D`. -/
theorem capture_then_calculate_decodes_witness :
    (calculate_am2301_data
        (capture_edges (start_am2301_measurement zero_window) frame_edges)).humidity_int =
        msb_first frame_bits 0 ∧
      (calculate_am2301_data
        (capture_edges (start_am2301_measurement zero_window) frame_edges)).temperature_int =
          msb_first frame_bits 16 :=
  capture_then_calculate_decodes zero_window frame_edges frame_bits (by decide!) (by decide!)
    (by decide!)

set_option maxRecDepth 1000000 in
/-- Counterexample to C1 as stated, at two inputs.  The first 42 edges of `frame_edges`
are a sequence of at least 42 capture interrupts with unambiguous intervals, yet
`humidity_int` is left at 0 and not at the value `0x0292` of the bits 0..15.  The 299
edges of `long_edges` have the same 40 data-edge intervals, yet the 8-bit `bitcounter`
wraps, the later edges overwrite the intervals and `humidity_int` becomes `0xFFFF`. -/
theorem capture_42_edges_not_decoded :
    (¬ (∀ (old : am2301_interrupt_data_t) (ts : List Nat) (bits : Nat → Bool),
        42 ≤ ts.length →
        (∀ i, i < 40 →
          (bits i = true → time_difference (ts.getD (i + 1) 0) (ts.getD (i + 2) 0) > 180) ∧
          (bits i = false →
            time_difference (ts.getD (i + 1) 0) (ts.getD (i + 2) 0) < 180)) →
        (calculate_am2301_data
            (capture_edges (start_am2301_measurement old) ts)).humidity_int =
            msb_first bits 0 ∧
          (calculate_am2301_data
            (capture_edges (start_am2301_measurement old) ts)).temperature_int =
              msb_first bits 16)) ∧
      (¬ (∀ (old : am2301_interrupt_data_t) (ts : List Nat) (bits : Nat → Bool),
        43 ≤ ts.length →
        (∀ i, i < 40 →
          (bits i = true → time_difference (ts.getD (i + 1) 0) (ts.getD (i + 2) 0) > 180) ∧
          (bits i = false →
            time_difference (ts.getD (i + 1) 0) (ts.getD (i + 2) 0) < 180)) →
        (calculate_am2301_data
            (capture_edges (start_am2301_measurement old) ts)).humidity_int =
            msb_first bits 0 ∧
          (calculate_am2301_data
            (capture_edges (start_am2301_measurement old) ts)).temperature_int =
              msb_first bits 16)) := by
  have hspec : msb_first frame_bits 0 = 658 := by decide!
  constructor
  · intro h
    have h42 := h zero_window (frame_edges.take 42) frame_bits (by decide!) (by decide!)
    have hcode : (calculate_am2301_data
        (capture_edges (start_am2301_measurement zero_window)
          (frame_edges.take 42))).humidity_int = 0 := by decide!
    rw [hcode, hspec] at h42
    exact absurd h42.1 (by decide!)
  · intro h
    have h299 := h zero_window long_edges frame_bits (by decide!) (by decide!)
    have hcode : (calculate_am2301_data
        (capture_edges (start_am2301_measurement zero_window) long_edges)).humidity_int =
          65535 := by decide!
    rw [hcode, hspec] at h299
    exact absurd h299.1 (by decide!)

/-! ## The checksum verdict (C2) -/

set_option maxRecDepth 100000 in
/-- C2, evaluated on the code: the window left by `bad_checksum_edges` is complete
(`bitcounter = 43`), its received checksum byte `0x00` differs from the byte sum `0xA2` of
the decoded values, the locals at the `return;` are `parity = 0` and
`conversion = 0x0D00`, and `calculate_am2301_data` leaves `data_validity` at `DATA_VALID`
instead of setting `DATA_PARITY_ERROR`. -/
theorem calculate_skips_checksum_test :
    bad_checksum_window.bitcounter = 43 ∧
      received_checksum (calculate_am2301_data bad_checksum_window) = 0x00 ∧
      temp_parity (calculate_am2301_data bad_checksum_window) = 0xA2 ∧
      calculate_am2301_locals bad_checksum_window = (0, 0x0D00) ∧
      (calculate_am2301_data bad_checksum_window).data_validity = DATA_VALID ∧
      (calculate_am2301_data bad_checksum_window).data_validity ≠ DATA_PARITY_ERROR := by
  decide!

/-! ## The TWI write sequence (C5) -/

/-- C5: after `twi_send_command` with a payload of `n` bytes, `1 ≤ n ≤ 255`, the handler
fed a start acknowledge (`0x08` or `0x10`), an address acknowledge (`0x18`) and `n` data
acknowledges (`0x28`) goes from `WR_START_SENDING` to `WR_SLA_SENDING`, then to
`WR_DATA_SENDING`, stays there for the first `n - 1` data acknowledges and enters
`WR_STOP_SENDING` on the `n`-th. -/
theorem twi_write_visits_states (memory : Nat → Nat) (s : twi_i2c_state_t)
    (address n data start : Nat) (hn1 : 1 ≤ n) (hn : n ≤ 255)
    (hstart : start = 0x08 ∨ start = 0x10) :
    (twi_send_command s address n data).state = WR_START_SENDING ∧
      (twi_events memory (twi_send_command s address n data)
          (start :: 0x18 :: List.replicate n 0x28)).map (fun r => r.i2c_state.state) =
        WR_SLA_SENDING :: WR_DATA_SENDING ::
          (List.replicate (n - 1) WR_DATA_SENDING ++ [WR_STOP_SENDING]) := by
  refine ⟨rfl, ?_⟩
  have hstartack : ¬ ((start &&& 0xF8) ≠ TWI_MSS_START_TRANSMITTED ∧
      (start &&& 0xF8) ≠ TWI_MSS_REPEATED_START_TRANSMITTED) := by
    rcases hstart with h | h <;> subst h <;> decide
  have hsla : (0x18 &&& 0xF8) = TWI_MSS_SLA_W_TRANSMITTED_ACK_RECEIVED := by decide
  have h1 : ISR_TWI memory (twi_send_command s address n data) start =
      ⟨{ twi_send_command s address n data with state := WR_SLA_SENDING },
        some ((address <<< 1) % 256), some TWCR_CONTINUE⟩ := by
    simp only [ISR_TWI, twi_send_command, hstartack, if_false]
  have h2 : ISR_TWI memory
      { twi_send_command s address n data with state := WR_SLA_SENDING } 0x18 =
      ⟨{ twi_send_command s address n data with
          data_ptr := data + 1
          data_length := (n + 255) % 256
          state := WR_DATA_SENDING },
        some (memory data), some TWCR_CONTINUE⟩ := by
    simp [ISR_TWI, twi_send_command, hsla]
  have hn' : n = (n - 1) + 1 := by omega
  have h3 := twi_data_phase memory (n - 1)
    { twi_send_command s address n data with
      data_ptr := data + 1
      data_length := (n + 255) % 256
      state := WR_DATA_SENDING } rfl (by simp only; omega) (by omega)
  rw [← hn'] at h3
  rw [twi_events]
  simp only [h1, List.map_cons]
  rw [twi_events]
  simp only [h2, List.map_cons]
  rw [h3]

/-- Witness for C5: a one-byte write started on a repeated start visits
`WR_SLA_SENDING`, `WR_DATA_SENDING`, `WR_STOP_SENDING` after the three events. -/
theorem twi_write_visits_states_witness :
    (twi_send_command two_byte_command 0x3f 1 100).state = WR_START_SENDING ∧
      (twi_events payload_memory (twi_send_command two_byte_command 0x3f 1 100)
          (0x10 :: 0x18 :: List.replicate 1 0x28)).map (fun r => r.i2c_state.state) =
        WR_SLA_SENDING :: WR_DATA_SENDING ::
          (List.replicate (1 - 1) WR_DATA_SENDING ++ [WR_STOP_SENDING]) :=
  twi_write_visits_states payload_memory two_byte_command 0x3f 1 100 0x10 (by decide)
    (by decide) (Or.inr rfl)

/-! ## Mismatched status codes (C6) -/

/-- C6, evaluated on the code: in a two-byte transaction the address phase finds the
status `0x20` (no acknowledge) instead of `0x18`; the handler stores `0x20` in `status`
but stays in `WR_SLA_SENDING` and never enters `WR_ERROR`, so the events `0x18`, `0x28`
that follow make it write both payload bytes to the data register. -/
theorem twi_mismatch_keeps_sending :
    (twi_events payload_memory two_byte_command [0x08, 0x20, 0x18, 0x28]).map
        (fun r => (r.i2c_state.state, r.i2c_state.status, r.TWDR)) =
      [(WR_SLA_SENDING, 0, some 0x7e), (WR_SLA_SENDING, 0x20, none),
        (WR_DATA_SENDING, 0x20, some 0xAB), (WR_DATA_SENDING, 0x20, some 0xCD)] := by
  decide

/-! ## The coarse delay (C7, C8) -/

/-- C7: for every value of the tick counter and whatever wake-ups are to come,
`delay_seconds(0)` returns without a single `sleep_mode()` and with the tick counter at
its call-time value. -/
theorem delay_seconds_zero (system_clock : Nat) (wakeups : List wakeup) :
    delay_seconds 0 system_clock wakeups = some ⟨0, system_clock⟩ := by
  simp [delay_seconds]

/-- C8, as amended: for every 32-bit `n ≥ 1` and call-time tick value `c`, `delay_seconds(n)`
returns after `j` wake-ups exactly when `j` is the first moment at which
`(n * 100) mod 2^32` tick interrupts have occurred, however the unrelated wake-ups are
interleaved; it does return once the wake-ups hold that many ticks; and the number is
`n * 100` whenever `n * 100 < 2^32`. -/
theorem delay_seconds_returns_after_ticks (n c : Nat) (wakeups : List wakeup)
    (hn : 1 ≤ n) (hc : c < 4294967296) :
    (∀ r, delay_seconds n c wakeups = some r ↔
        ∃ j, j ≤ wakeups.length ∧ ticks_within wakeups j = (n * 100) % 4294967296 ∧
          (∀ i, i < j → ticks_within wakeups i < (n * 100) % 4294967296) ∧
          r = ⟨j, (c + n * 100) % 4294967296⟩) ∧
      ((n * 100) % 4294967296 ≤ wakeups.count wakeup.tick →
        ∃ r, delay_seconds n c wakeups = some r) ∧
      (n * 100 < 4294967296 → (n * 100) % 4294967296 = n * 100) := by
  have hn0 : ¬ 0 = n := by omega
  have hK : (n * 100) % 4294967296 < 4294967296 := Nat.mod_lt _ (by norm_num)
  have he : ((n * 100) % 4294967296 + c) % 4294967296 =
      (c + (n * 100) % 4294967296) % 4294967296 := by omega
  have hclock : (c + n * 100) % 4294967296 =
      ((n * 100) % 4294967296 + c) % 4294967296 := by omega
  refine ⟨?_, ?_, fun h => Nat.mod_eq_of_lt h⟩
  · intro r
    simp only [delay_seconds, hn0, if_false]
    rw [delay_seconds_loop_spec wakeups _ c ((n * 100) % 4294967296) 0 r hc hK he, hclock]
    simp only [Nat.zero_add]
  · intro hcount
    simp only [delay_seconds, hn0, if_false]
    exact delay_seconds_loop_returns wakeups _ c ((n * 100) % 4294967296) 0 hc hK he hcount

set_option maxRecDepth 100000 in
/-- Witness for C8: called 6 ticks before the tick counter wraps, `delay_seconds(1)`
returns from the wake-ups of `one_second_wakeups`, which hold 100 ticks. -/
theorem delay_seconds_returns_after_ticks_witness :
    ∃ r, delay_seconds 1 4294967290 one_second_wakeups = some r :=
  (delay_seconds_returns_after_ticks 1 4294967290 one_second_wakeups (by decide!)
    (by decide!)).2.1 (by decide!)

/-- Counterexample to C8 as stated: for `n = 2^30` the product `n * 100` is a multiple of
`2^32`, the expiration time equals the call-time tick value and `delay_seconds` returns at
once, after no tick interrupt instead of `n * 100`. -/
theorem delay_seconds_overflow_returns_at_once :
    ¬ (∀ (n c : Nat) (wakeups : List wakeup) (r : delay_return),
        1 ≤ n → n < 4294967296 → c < 4294967296 →
        (delay_seconds n c wakeups = some r ↔
          ∃ j, j ≤ wakeups.length ∧ ticks_within wakeups j = n * 100 ∧
            (∀ i, i < j → ticks_within wakeups i < n * 100) ∧
            r = ⟨j, (c + n * 100) % 4294967296⟩)) := by
  intro h
  have hret : delay_seconds 1073741824 0 [] = some ⟨0, 0⟩ := by decide
  obtain ⟨j, hj, hcount, _, _⟩ :=
    (h 1073741824 0 [] ⟨0, 0⟩ (by decide) (by decide) (by decide)).1 hret
  have hj0 : j = 0 := by simpa using hj
  subst hj0
  rw [ticks_within_zero] at hcount
  omega

/-! ## The fine delay (C9) -/

/-- C9, evaluated on the code: entered at register value 100 with delay 32700, the target
is 65500 and the window `[65500, 65550)` wraps to end at 14; the loop exits on the
reading 101, which lies outside the window. -/
theorem delay_microseconds_exits_outside_window :
    expiration_time 100 32700 = 65500 ∧
      expiration_time_upper_limit 100 32700 = 14 ∧
      delay_microseconds_exit 100 32700 101 101 = true ∧
      in_guard_window (expiration_time 100 32700) 101 = false := by
  decide

/-! ## Edges that write nothing (C11, C12) -/

/-- The handler leaves the whole interval array alone unless the incremented counter
lies in 3..42. -/
theorem ISR_timestamps_unchanged (w : am2301_interrupt_data_t) (t : Nat)
    (h : (w.bitcounter + 1) % 256 < 3 ∨ 42 < (w.bitcounter + 1) % 256) :
    (ISR_TIMER1_CAPT w t).timestamps = w.timestamps := by
  funext i
  have hi : (i : Nat) < 40 := i.isLt
  exact ISR_timestamps_other w t i (by omega)

/-- From a counter value in 0..2 or 42..255, the next `(258 - bitcounter) mod 256` edges
write no interval. -/
theorem capture_edges_no_write (rest : List Nat) :
    ∀ w : am2301_interrupt_data_t, (w.bitcounter ≤ 2 ∨ 42 ≤ w.bitcounter) →
      w.bitcounter < 256 → rest.length ≤ (258 - w.bitcounter) % 256 →
      (capture_edges w rest).timestamps = w.timestamps := by
  induction rest with
  | nil => intro w _ _ _; rfl
  | cons t r ih =>
    intro w hzone hlt hlen
    simp only [List.length_cons] at hlen
    have hb := ISR_bitcounter w t
    show (capture_edges (ISR_TIMER1_CAPT w t) r).timestamps = _
    rw [ih (ISR_TIMER1_CAPT w t) (by rw [hb]; omega) (by rw [hb]; omega) (by rw [hb]; omega)]
    exact ISR_timestamps_unchanged w t (by omega)

/-- Capturing a concatenation of edge lists is capturing one list after the other. -/
theorem capture_edges_append (w : am2301_interrupt_data_t) (a b : List Nat) :
    capture_edges w (a ++ b) = capture_edges (capture_edges w a) b := by
  unfold capture_edges
  exact List.foldl_append _ _ _ _

/-- While the 8-bit counter has not come round again, the guard `bitcounter > 42` does
discard the edges: from a freshly armed window the interval array after the `k`-th edge
equals the array after the 42nd edge for every `k` from 42 to 258. -/
theorem capture_no_write_after_42 (old : am2301_interrupt_data_t) (ts : List Nat) (k : Nat)
    (hlo : 42 ≤ k) (hhi : k ≤ 258) :
    (capture_edges (start_am2301_measurement old) (ts.take k)).timestamps =
      (capture_edges (start_am2301_measurement old) (ts.take 42)).timestamps := by
  have hk : k = 42 + (k - 42) := by omega
  rw [hk, List.take_add, capture_edges_append]
  by_cases hlen : 42 ≤ ts.length
  · have h0 : (start_am2301_measurement old).bitcounter = 0 := rfl
    have hl : (ts.take 42).length = 42 := by rw [List.length_take]; omega
    have hbc : (capture_edges (start_am2301_measurement old) (ts.take 42)).bitcounter = 42 := by
      rw [capture_edges_bitcounter (ts.take 42) _ (by rw [h0, hl]; omega), h0, hl]
    apply capture_edges_no_write
    · right; rw [hbc]
    · rw [hbc]; omega
    · rw [hbc, List.length_take]
      have : (258 - 42) % 256 = 216 := by norm_num
      omega
  · have hdrop : List.drop 42 ts = [] := List.drop_eq_nil_of_le (by omega)
    rw [hdrop, List.take_nil]
    rfl

set_option maxRecDepth 1000000 in
/-- The 258 first edges of `long_edges` leave the interval array as the first 42 left
it. -/
theorem capture_no_write_after_42_witness :
    (capture_edges (start_am2301_measurement zero_window) (long_edges.take 258)).timestamps =
      (capture_edges (start_am2301_measurement zero_window) (long_edges.take 42)).timestamps :=
  capture_no_write_after_42 zero_window long_edges 258 (by decide!) (by decide!)

set_option maxRecDepth 1000000 in
/-- C11, evaluated on the code: in the window fed with `long_edges` the entry
`timestamps[0]` holds 150 after the 42nd edge and still after the 258th, but the 8-bit
`bitcounter` has wrapped at the 256th edge, the 259th edge finds it at 3 and the handler
overwrites `timestamps[0]` with 300; so the array after the `k`-th edge is not the array
after the 42nd for every `k ≥ 42`. -/
theorem capture_edge_259_overwrites :
    (capture_edges (start_am2301_measurement zero_window)
        (long_edges.take 42)).timestamps ⟨0, by decide⟩ = 150 ∧
      (capture_edges (start_am2301_measurement zero_window)
        (long_edges.take 258)).timestamps ⟨0, by decide⟩ = 150 ∧
      (capture_edges (start_am2301_measurement zero_window)
        (long_edges.take 259)).bitcounter = 3 ∧
      (capture_edges (start_am2301_measurement zero_window)
        (long_edges.take 259)).timestamps ⟨0, by decide⟩ = 300 ∧
      ¬ (∀ (old : am2301_interrupt_data_t) (ts : List Nat) (k : Nat), 42 ≤ k →
        (capture_edges (start_am2301_measurement old) (ts.take k)).timestamps =
          (capture_edges (start_am2301_measurement old) (ts.take 42)).timestamps) := by
  have hbefore : (capture_edges (start_am2301_measurement zero_window)
      (long_edges.take 42)).timestamps ⟨0, by decide⟩ = 150 := by decide!
  have hafter : (capture_edges (start_am2301_measurement zero_window)
      (long_edges.take 259)).timestamps ⟨0, by decide⟩ = 300 := by decide!
  refine ⟨hbefore, by decide!, by decide!, hafter, ?_⟩
  intro h
  have h259 := congrFun (h zero_window long_edges 259 (by decide)) ⟨0, by decide⟩
  rw [hafter, hbefore] at h259
  exact absurd h259 (by decide)

/-- C12, as amended: for every window state with `bitcounter < 255` and every capture
interrupt, `bitcounter` after the handler is `bitcounter + 1`, strictly greater than
before. -/
theorem capture_increments_bitcounter (w : am2301_interrupt_data_t) (ICR1 : Nat)
    (h : w.bitcounter < 255) :
    (ISR_TIMER1_CAPT w ICR1).bitcounter = w.bitcounter + 1 ∧
      w.bitcounter < (ISR_TIMER1_CAPT w ICR1).bitcounter := by
  rw [ISR_bitcounter]
  omega

/-- Witness for C12: an edge that finds `bitcounter = 43` leaves it at 44. -/
theorem capture_increments_bitcounter_witness :
    (ISR_TIMER1_CAPT cold_window 0).bitcounter = cold_window.bitcounter + 1 ∧
      cold_window.bitcounter < (ISR_TIMER1_CAPT cold_window 0).bitcounter :=
  capture_increments_bitcounter cold_window 0 (by decide)

/-- Counterexample to C12 as stated: at `bitcounter = 255` the handler wraps the 8-bit
counter to 0. -/
theorem capture_wraps_bitcounter :
    ¬ (∀ (w : am2301_interrupt_data_t) (ICR1 : Nat),
        w.bitcounter < (ISR_TIMER1_CAPT w ICR1).bitcounter) := by
  intro h
  have h255 := h ⟨255, 180, 0, 0, 0, 0, 0, fun _ => 0, fun _ => 0⟩ 0
  rw [ISR_bitcounter] at h255
  exact absurd h255 (by decide)

/-! ## The decoded values (C13, C14) -/

/-- A decoding loop of at least one step leaves a 16-bit value. -/
theorem decode_loop_lt (data : am2301_interrupt_data_t) (count : Nat) :
    ∀ first c : Nat, c < 65536 → decode_loop data first count c < 65536 := by
  induction count with
  | zero => intro first c hc; simpa [decode_loop] using hc
  | succ n ih =>
    intro first c _
    have hrec : decode_loop data first (n + 1) c =
        decode_loop data (first + 1) n (decode_step data c first) := by
      simp [decode_loop, List.range'_succ]
    rw [hrec]
    apply ih
    unfold decode_step
    split <;> exact Nat.mod_lt _ (by norm_num)

/-- Bit 15 of a 16-bit value is set exactly when the value is at least `2^15`. -/
theorem and_0x8000_iff (t : Nat) (ht : t < 65536) : (t &&& 0x8000) = 0x8000 ↔ 32768 ≤ t := by
  have h := Nat.and_two_pow t 15
  have hbit : t.testBit 15 = decide (t / 2 ^ 15 % 2 = 1) := Nat.testBit_to_div_mod
  norm_num at h hbit
  rw [h, hbit]
  by_cases hge : 32768 ≤ t
  · have : t / 32768 % 2 = 1 := by omega
    simp [this, hge]
  · have : ¬ t / 32768 % 2 = 1 := by omega
    simp [this, hge]

/-- Masking with `0x7fff` keeps the low 15 bits. -/
theorem and_0x7fff (t : Nat) : (t &&& 0x7fff) = t % 32768 := by
  have h := Nat.and_pow_two_sub_one_eq_mod t 15
  norm_num at h
  exact h

/-- C13: for a valid reading the temperature printed by `get_am2301_temperature` is
`-(temperature_int mod 2^15) / 10` when bit 15 of the 16-bit `temperature_int` is set and
`temperature_int / 10` otherwise; raw `0x8019` gives `-2.5` and raw `0x00C8` gives `20.0`. -/
theorem temperature_sign_magnitude (w : am2301_interrupt_data_t)
    (hvalid : (calculate_am2301_data w).data_validity = DATA_VALID) :
    (get_am2301_temperature w).2 =
        temperature_text.Temp
          (if 32768 ≤ (calculate_am2301_data w).temperature_int then
            -((((calculate_am2301_data w).temperature_int % 32768 : Nat) : ℚ) / 10)
          else ((calculate_am2301_data w).temperature_int : ℚ) / 10) ∧
      ((calculate_am2301_data w).temperature_int = 0x8019 →
        (get_am2301_temperature w).2 = temperature_text.Temp (-(5 / 2))) ∧
      ((calculate_am2301_data w).temperature_int = 0x00C8 →
        (get_am2301_temperature w).2 = temperature_text.Temp 20) := by
  have hbc : ¬ w.bitcounter < 43 := by
    intro hlt
    have := calculate_incomplete_below_43 w hlt
    rw [this] at hvalid
    exact absurd hvalid (by decide)
  have ht : (calculate_am2301_data w).temperature_int < 65536 := by
    simp only [calculate_am2301_data, hbc, if_false]
    exact decode_loop_lt _ 16 16 0 (by norm_num)
  have hmain : (get_am2301_temperature w).2 =
      temperature_text.Temp
        (if 32768 ≤ (calculate_am2301_data w).temperature_int then
          -((((calculate_am2301_data w).temperature_int % 32768 : Nat) : ℚ) / 10)
        else ((calculate_am2301_data w).temperature_int : ℚ) / 10) := by
    unfold get_am2301_temperature
    simp only [hvalid, if_true]
    by_cases hneg : 32768 ≤ (calculate_am2301_data w).temperature_int
    · rw [if_pos ((and_0x8000_iff _ ht).mpr hneg), if_pos hneg, and_0x7fff, div_neg]
    · rw [if_neg (fun h => hneg ((and_0x8000_iff _ ht).mp h)), if_neg hneg]
  refine ⟨hmain, ?_, ?_⟩
  · intro h
    rw [hmain, h]
    norm_num
  · intro h
    rw [hmain, h]
    norm_num

/-- Witness for C13: the valid window `cold_window` decodes to raw `0x8019` and prints
`-2.5`. -/
theorem temperature_sign_magnitude_witness :
    (get_am2301_temperature cold_window).2 = temperature_text.Temp (-(5 / 2)) :=
  (temperature_sign_magnitude cold_window (by decide)).2.1 (by decide)

/-- C14: for every window with `bitcounter ≥ 43`, `calculate_am2301_data` sets
`humidity_int` to the sum over `i = 0..15` of `b_i * 2^(15-i)` and `temperature_int` to
the sum over `i = 16..31` of `b_i * 2^(31-i)`, where `b_i` is 1 for an interval strictly
above `zero_bit_limit` and 0 otherwise; an interval equal to the limit gives 0. -/
theorem calculate_assembles_bits (w : am2301_interrupt_data_t) (h : 43 ≤ w.bitcounter) :
    (calculate_am2301_data w).humidity_int =
        ∑ i in Finset.range 16, decoded_bit w i * 2 ^ (15 - i) ∧
      (calculate_am2301_data w).temperature_int =
        ∑ i in Finset.Ico 16 32, decoded_bit w i * 2 ^ (31 - i) ∧
      (∀ i, read_timestamp w i = w.zero_bit_limit → decoded_bit w i = 0) := by
  have hbc : ¬ w.bitcounter < 43 := by omega
  have hcongr : ∀ x : Nat, decode_loop { w with humidity_int := x } = decode_loop w :=
    fun x => decode_loop_congr _ _ rfl rfl
  refine ⟨?_, ?_, ?_⟩
  · simp only [calculate_am2301_data, hbc, if_false]
    rw [decode_loop_value w 16 0 0 (by omega) (by norm_num), Nat.zero_mul, Nat.zero_add]
    apply Finset.sum_congr rfl
    intro j _
    simp only [decoded_bit, Nat.zero_add]
  · simp only [calculate_am2301_data, hbc, if_false, hcongr]
    rw [decode_loop_value w 16 16 0 (by omega) (by norm_num), Nat.zero_mul, Nat.zero_add,
      Finset.sum_Ico_eq_sum_range]
    apply Finset.sum_congr rfl
    intro j hj
    have hj16 : j < 16 := Finset.mem_range.mp hj
    have he : 31 - (16 + j) = 16 - 1 - j := by omega
    simp only [decoded_bit, he]
  · intro i hi
    simp [decoded_bit, hi]

/-- Witness for C14: in `threshold_window` interval 0 equals the limit and interval 1
exceeds it by one, and the humidity value is assembled from the bits `0, 1, 0, ..., 0`. -/
theorem calculate_assembles_bits_witness :
    (calculate_am2301_data threshold_window).humidity_int =
        ∑ i in Finset.range 16, decoded_bit threshold_window i * 2 ^ (15 - i) ∧
      (calculate_am2301_data threshold_window).temperature_int =
        ∑ i in Finset.Ico 16 32, decoded_bit threshold_window i * 2 ^ (31 - i) ∧
      (∀ i, read_timestamp threshold_window i = threshold_window.zero_bit_limit →
        decoded_bit threshold_window i = 0) :=
  calculate_assembles_bits threshold_window (by decide)

/-! ## What the capture handler stores (C15) -/

/-- For timestamps below 20000 the 16-bit computation of the handler is the plain
difference, or 20000 minus the reverse difference. -/
theorem time_difference_of_lt (L T : Nat) (hL : L < 20000) (hT : T < 20000) :
    time_difference L T = if T > L then T - L else 20000 - (L - T) := by
  unfold time_difference
  split <;> omega

/-- C15: from a freshly armed window and for every sequence of `n ≤ 255` capture
interrupts with timestamps in 0..19999, the first two edges only count and set
`last_timestamp`, and for every `i < min (n - 2) 40` entry `i` of the interval array is
the wrap-corrected interval between the edges `i + 2` and `i + 3`. -/
theorem capture_fills_intervals (old : am2301_interrupt_data_t) (ts : List Nat)
    (hn : ts.length ≤ 255) (hrange : ∀ t ∈ ts, t < 20000) :
    capture_edges (start_am2301_measurement old) (ts.take 2) =
        { start_am2301_measurement old with
          bitcounter := (ts.take 2).length
          last_timestamp := (ts.take 2).getLastD 0 } ∧
      (∀ i, i < min (ts.length - 2) 40 →
        read_timestamp (capture_edges (start_am2301_measurement old) ts) i =
          if ts.getD (i + 2) 0 > ts.getD (i + 1) 0 then ts.getD (i + 2) 0 - ts.getD (i + 1) 0
          else 20000 - (ts.getD (i + 1) 0 - ts.getD (i + 2) 0)) := by
  constructor
  · match ts with
    | [] => rfl
    | [a] => simp [capture_edges, ISR_TIMER1_CAPT, start_am2301_measurement]
    | a :: b :: rest => simp [capture_edges, ISR_TIMER1_CAPT, start_am2301_measurement]
  · intro i hi
    have hi40 : i < TIMESTAMPS := by
      show i < 40
      omega
    have h := capture_edges_timestamps ts ⟨i, hi40⟩ (start_am2301_measurement old)
      (by simp [start_am2301_measurement])
      (by simp only [start_am2301_measurement]; omega)
      (by simp only [start_am2301_measurement]; omega)
    have h1 : i + 1 < ts.length := by omega
    have h2 : i + 2 < ts.length := by omega
    have hL : ts.getD (i + 1) 0 < 20000 := by
      rw [List.getD_eq_getElem ts 0 h1]
      exact hrange _ (List.getElem_mem h1)
    have hT : ts.getD (i + 2) 0 < 20000 := by
      rw [List.getD_eq_getElem ts 0 h2]
      exact hrange _ (List.getElem_mem h2)
    simp only [read_timestamp, hi40, dite_true]
    rw [h, ← time_difference_of_lt _ _ hL hT]
    simp [start_am2301_measurement]

set_option maxRecDepth 100000 in
/-- Witness for C15: the 43 edges of `frame_edges`; entry 4, between the edges at 19920
and 70, holds the wrapped interval 150. -/
theorem capture_fills_intervals_witness :
    read_timestamp (capture_edges (start_am2301_measurement zero_window) frame_edges) 4 =
      if frame_edges.getD (4 + 2) 0 > frame_edges.getD (4 + 1) 0 then
        frame_edges.getD (4 + 2) 0 - frame_edges.getD (4 + 1) 0
      else 20000 - (frame_edges.getD (4 + 1) 0 - frame_edges.getD (4 + 2) 0) :=
  (capture_fills_intervals zero_window frame_edges (by decide!) (by decide!)).2 4 (by decide!)

/-! ## The bytes of a TWI write (C16) -/

/-- In the data phase with `k` bytes left, `k + 1` data acknowledges make the handler
write the `k` bytes from `data_ptr` on, one per event, and assert the stop condition on
the last event only. -/
theorem twi_data_phase_writes (memory : Nat → Nat) (k : Nat) :
    ∀ s : twi_i2c_state_t, s.state = WR_DATA_SENDING → s.data_length = k → k < 256 →
      (twi_events memory s (List.replicate (k + 1) 0x28)).map (fun r => (r.TWDR, r.TWCR)) =
        (List.range k).map (fun j => (some (memory (s.data_ptr + j)), some TWCR_CONTINUE)) ++
          [(none, some TWCR_STOP)] := by
  have hack : (0x28 &&& 0xF8) = TWI_MSS_DATA_TRANSMITTED_ACK_RECEIVED := by decide
  induction k with
  | zero =>
    intro s hs hl _
    simp [twi_events, ISR_TWI, hs, hl, hack, List.replicate]
  | succ k ih =>
    intro s hs hl hk
    have hpos : s.data_length > 0 := by omega
    have hstep : ISR_TWI memory s 0x28 =
        ⟨{ s with data_ptr := s.data_ptr + 1, data_length := (s.data_length + 255) % 256 },
          some (memory s.data_ptr), some TWCR_CONTINUE⟩ := by
      simp [ISR_TWI, hs, hack, hpos]
    have hrec := ih { s with data_ptr := s.data_ptr + 1,
                             data_length := (s.data_length + 255) % 256 }
      hs (by simp only; omega) (by omega)
    rw [List.replicate_succ, twi_events]
    simp only [List.map_cons, hstep]
    rw [hrec, List.range_succ_eq_map, List.map_cons, List.map_map]
    simp only [List.cons_append, Nat.add_zero]
    congr 2
    apply List.map_congr_left
    intro j _
    simp only [Function.comp, Nat.succ_eq_add_one]
    congr 3
    omega

/-- C16: for every 7-bit address `a` and payload of `n` bytes, `1 ≤ n ≤ 255`, under the
expected status codes the handler writes to the data register the address byte `a << 1`
(bit 0 clear) on the start acknowledge, `payload[0]` on the address acknowledge and
`payload[j]` on the `j`-th data acknowledge, each once, writes no byte on the `n`-th
data acknowledge, and asserts the stop condition on that event and on no earlier one. -/
theorem twi_write_sends_payload (memory : Nat → Nat) (s : twi_i2c_state_t)
    (a n data start : Nat) (ha : a < 128) (hn1 : 1 ≤ n) (hn : n ≤ 255)
    (hstart : start = 0x08 ∨ start = 0x10) :
    (twi_events memory (twi_send_command s a n data)
        (start :: 0x18 :: List.replicate n 0x28)).map (fun r => (r.TWDR, r.TWCR)) =
      (some (2 * a), some TWCR_CONTINUE) ::
        ((List.range n).map (fun j => (some (memory (data + j)), some TWCR_CONTINUE)) ++
          [(none, some TWCR_STOP)]) ∧
      (2 * a) % 2 = 0 ∧ 2 * a < 256 ∧ TWCR_CONTINUE ≠ TWCR_STOP := by
  refine ⟨?_, by omega, by omega, by decide⟩
  have hstartack : ¬ ((start &&& 0xF8) ≠ TWI_MSS_START_TRANSMITTED ∧
      (start &&& 0xF8) ≠ TWI_MSS_REPEATED_START_TRANSMITTED) := by
    rcases hstart with h | h <;> subst h <;> decide
  have hsla : (0x18 &&& 0xF8) = TWI_MSS_SLA_W_TRANSMITTED_ACK_RECEIVED := by decide
  have haddr : (a <<< 1) % 256 = 2 * a := by
    rw [Nat.shiftLeft_eq, pow_one, Nat.mul_comm]
    exact Nat.mod_eq_of_lt (by omega)
  have h1 : ISR_TWI memory (twi_send_command s a n data) start =
      ⟨{ twi_send_command s a n data with state := WR_SLA_SENDING },
        some (2 * a), some TWCR_CONTINUE⟩ := by
    simp only [ISR_TWI, twi_send_command, hstartack, if_false, haddr]
  have h2 : ISR_TWI memory
      { twi_send_command s a n data with state := WR_SLA_SENDING } 0x18 =
      ⟨{ twi_send_command s a n data with
          data_ptr := data + 1
          data_length := (n + 255) % 256
          state := WR_DATA_SENDING },
        some (memory data), some TWCR_CONTINUE⟩ := by
    simp [ISR_TWI, twi_send_command, hsla]
  have hn' : n = (n - 1) + 1 := by omega
  have h3 := twi_data_phase_writes memory (n - 1)
    { twi_send_command s a n data with
      data_ptr := data + 1
      data_length := (n + 255) % 256
      state := WR_DATA_SENDING } rfl (by simp only; omega) (by omega)
  rw [← hn'] at h3
  rw [twi_events]
  simp only [h1, List.map_cons]
  rw [twi_events]
  simp only [h2, List.map_cons]
  rw [h3]
  congr 1
  conv_rhs => rw [hn', List.range_succ_eq_map, List.map_cons, List.map_map]
  simp only [List.cons_append, Nat.add_zero]
  congr 2
  apply List.map_congr_left
  intro j _
  simp only [Function.comp, Nat.succ_eq_add_one]
  congr 3
  omega

/-- Witness for C16: a two-byte write to address `0x3f` puts `0x7e`, `0xAB`, `0xCD` on
the data register and asserts stop on the second data acknowledge. -/
theorem twi_write_sends_payload_witness :
    (twi_events payload_memory (twi_send_command two_byte_command 0x3f 2 100)
        (0x08 :: 0x18 :: List.replicate 2 0x28)).map (fun r => (r.TWDR, r.TWCR)) =
      (some (2 * 0x3f), some TWCR_CONTINUE) ::
        ((List.range 2).map
            (fun j => (some (payload_memory (100 + j)), some TWCR_CONTINUE)) ++
          [(none, some TWCR_STOP)]) :=
  (twi_write_sends_payload payload_memory two_byte_command 0x3f 2 100 0x08 (by decide)
    (by decide) (by decide) (Or.inl rfl)).1

/-! ## The latched error code (C17) -/

/-- C17, evaluated on the code: in the address phase of `two_byte_command` the status
`0x20` changes `i2c_state.status` from 0 to `0x20`, the observed code masked with `0xF8`,
while the state stays `WR_SLA_SENDING` and is not `WR_ERROR`. -/
theorem twi_status_changes_without_error_state :
    address_phase.state = WR_SLA_SENDING ∧
      address_phase.status = 0 ∧
      (ISR_TWI payload_memory address_phase 0x20).i2c_state.status = (0x20 &&& 0xF8) ∧
      (ISR_TWI payload_memory address_phase 0x20).i2c_state.status ≠ address_phase.status ∧
      (ISR_TWI payload_memory address_phase 0x20).i2c_state.state = WR_SLA_SENDING ∧
      (ISR_TWI payload_memory address_phase 0x20).i2c_state.state ≠ WR_ERROR := by
  decide

/-! ## The fine delay across the timer period (C18) -/

/-- C18, evaluated on the code: `delay_microseconds(5000)` entered when the register reads
15000 computes the target 25000 and tests the window `[25000, 25050)`; the register,
which counts to `OCR_LIMIT = 20000` and goes on from 0, never reads a value in it, so the
exit test is false at every pair of readings. -/
theorem delay_microseconds_never_exits (k1 k2 : Nat) :
    expiration_time 15000 5000 = 25000 ∧
      expiration_time_upper_limit 15000 5000 = 25050 ∧
      delay_microseconds_exit 15000 5000 (TCNT1_after 15000 k1) (TCNT1_after 15000 k2) =
        false := by
  have h1 : expiration_time 15000 5000 = 25000 := by decide
  have h2 : expiration_time_upper_limit 15000 5000 = 25050 := by decide
  refine ⟨h1, h2, ?_⟩
  have hr : TCNT1_after 15000 k1 < 20001 := by
    unfold TCNT1_after OCR_LIMIT
    exact Nat.mod_lt _ (by norm_num)
  unfold delay_microseconds_exit
  simp only [h1, h2]
  simp
  intro hge
  omega

/-! ## What the decode routine and the arming leave in the window (C19, C20) -/

/-- C19: for every window, `calculate_am2301_data` leaves `bitcounter`, `last_timestamp`,
`zero_bit_limit` and every entry of `timestamps` as they were. -/
theorem calculate_keeps_captured_data (w : am2301_interrupt_data_t) :
    (calculate_am2301_data w).bitcounter = w.bitcounter ∧
      (calculate_am2301_data w).last_timestamp = w.last_timestamp ∧
      (calculate_am2301_data w).zero_bit_limit = w.zero_bit_limit ∧
      (∀ i, (calculate_am2301_data w).timestamps i = w.timestamps i) := by
  unfold calculate_am2301_data
  split
  · exact ⟨rfl, rfl, rfl, fun _ => rfl⟩
  · exact ⟨rfl, rfl, rfl, fun _ => rfl⟩

set_option maxRecDepth 1000000 in
/-- The bytes built by `send_i2c_lcd_command_4bit_mode` for every data byte, backlight
bit and register-select bit: their closed form, the effect of the exclusive or with 4,
the reassembly of the data byte and the cleared RW bit. -/
theorem lcd_bytes_table :
    ∀ d, d < 256 → ∀ bl, bl < 2 → ∀ r, r < 2 →
      (decide ((((d &&& 0xF0) ||| (bl <<< 3)) % 256 ||| r ||| (1 <<< 2)) =
          ((d &&& 0xF0) ||| (bl <<< 3) ||| r ||| 0x04)) &&
        decide (((((d <<< 4) &&& 0xf0) ||| (bl <<< 3)) % 256 ||| r ||| 0x4) =
          (((d <<< 4) &&& 0xF0) ||| (bl <<< 3) ||| r ||| 0x04)) &&
        decide ((((d &&& 0xF0) ||| (bl <<< 3) ||| r ||| 0x04) ^^^ 0x4) =
          (((d &&& 0xF0) ||| (bl <<< 3) ||| r ||| 0x04) &&& 0xFB)) &&
        decide (((((d <<< 4) &&& 0xF0) ||| (bl <<< 3) ||| r ||| 0x04) ^^^ 0x4) =
          ((((d <<< 4) &&& 0xF0) ||| (bl <<< 3) ||| r ||| 0x04) &&& 0xFB)) &&
        decide (((((d &&& 0xF0) ||| (bl <<< 3) ||| r ||| 0x04) &&& 0xF0) |||
            (((((d <<< 4) &&& 0xF0) ||| (bl <<< 3) ||| r ||| 0x04) &&& 0xF0) >>> 4)) = d) &&
        decide ((((d &&& 0xF0) ||| (bl <<< 3) ||| r ||| 0x04) &&& 0x02) = 0) &&
        decide (((((d &&& 0xF0) ||| (bl <<< 3) ||| r ||| 0x04) &&& 0xFB) &&& 0x02) = 0) &&
        decide ((((((d <<< 4) &&& 0xF0) ||| (bl <<< 3) ||| r ||| 0x04)) &&& 0x02) = 0) &&
        decide (((((((d <<< 4) &&& 0xF0) ||| (bl <<< 3) ||| r ||| 0x04)) &&& 0xFB) &&& 0x02) =
          0)) = true := by
  decide!

/-- Once the transaction has stopped, the wait ends at once and consumes no bus event. -/
theorem poll_stopped (memory : Nat → Nat) (st : twi_i2c_state_t) (events : List Nat)
    (hs : st.state = WR_STOP_SENDING) :
    poll_for_twi_transmitted memory st events = ⟨st, events, [], true⟩ := by
  cases events with
  | nil => simp [poll_for_twi_transmitted, hs]
  | cons t rest => simp [poll_for_twi_transmitted, hs]

/-- The wait after a one-byte `twi_send_command` on an acknowledging bus: the handler
sends the address byte and the byte at `data`, the wait ends after three events. -/
theorem poll_acknowledged (memory : Nat → Nat) (st : twi_i2c_state_t)
    (address data start : Nat) (rest : List Nat) (hstart : start = 0x08 ∨ start = 0x10) :
    poll_for_twi_transmitted memory (twi_send_command st address 1 data)
        (start :: 0x18 :: 0x28 :: rest) =
      ⟨{ twi_send_command st address 1 data with
          data_ptr := data + 1
          data_length := 0
          state := WR_STOP_SENDING },
        rest, [(address <<< 1) % 256, memory data], true⟩ := by
  have hstartack : ¬ ((start &&& 0xF8) ≠ TWI_MSS_START_TRANSMITTED ∧
      (start &&& 0xF8) ≠ TWI_MSS_REPEATED_START_TRANSMITTED) := by
    rcases hstart with h | h <;> subst h <;> decide
  have hsla : (0x18 &&& 0xF8) = TWI_MSS_SLA_W_TRANSMITTED_ACK_RECEIVED := by decide
  have hack : (0x28 &&& 0xF8) = TWI_MSS_DATA_TRANSMITTED_ACK_RECEIVED := by decide
  have h1 : ISR_TWI memory (twi_send_command st address 1 data) start =
      ⟨{ twi_send_command st address 1 data with state := WR_SLA_SENDING },
        some ((address <<< 1) % 256), some TWCR_CONTINUE⟩ := by
    simp only [ISR_TWI, twi_send_command, hstartack, if_false]
  have h2 : ISR_TWI memory
      { twi_send_command st address 1 data with state := WR_SLA_SENDING } 0x18 =
      ⟨{ twi_send_command st address 1 data with
          data_ptr := data + 1
          data_length := 0
          state := WR_DATA_SENDING },
        some (memory data), some TWCR_CONTINUE⟩ := by
    simp [ISR_TWI, twi_send_command, hsla]
  have h3 : ISR_TWI memory
      { twi_send_command st address 1 data with
        data_ptr := data + 1
        data_length := 0
        state := WR_DATA_SENDING } 0x28 =
      ⟨{ twi_send_command st address 1 data with
          data_ptr := data + 1
          data_length := 0
          state := WR_STOP_SENDING },
        none, some TWCR_STOP⟩ := by
    simp [ISR_TWI, twi_send_command, hack]
  have hne1 : ¬ (twi_send_command st address 1 data).state = WR_STOP_SENDING := by
    simp [twi_send_command]
  rw [poll_for_twi_transmitted, if_neg hne1]
  simp only [h1]
  rw [poll_for_twi_transmitted, if_neg (by simp)]
  simp only [h2]
  rw [poll_for_twi_transmitted, if_neg (by simp)]
  simp only [h3]
  rw [poll_stopped _ _ _ rfl]
  simp

/-- C21, as amended: for every data byte `d`, every `rs` and every backlight state `bl` in
{0, 1}, on a bus that acknowledges the four transactions
`send_i2c_lcd_command_4bit_mode` returns after submitting exactly four one-byte writes,
in order `(d & 0xF0) | (bl << 3) | (rs & 1) | 0x04`, the same byte with bit 2 (EN)
cleared, `((d << 4) & 0xF0) | (bl << 3) | (rs & 1) | 0x04` and that byte with EN cleared,
and these are the bytes the handler sends after each address byte; on any bus, when the
function returns it has submitted exactly these four; the high nibbles of the first and
third byte reassemble `d`, and bit 1 (RW) is 0 in all four. -/
theorem lcd_4bit_mode_writes (memory : Nat → Nat) (ptr bl : Nat) (st : twi_i2c_state_t)
    (events : List Nat) (address rs d : Nat) (hd : d < 256) (hbl : bl ≤ 1) :
    ((send_i2c_lcd_command_4bit_mode memory ptr bl st events address rs d).returned = true →
        (send_i2c_lcd_command_4bit_mode memory ptr bl st events address rs d).writes =
          lcd_four_writes address d bl rs) ∧
      (∀ s1 s2 s3 s4 rest, (s1 = 0x08 ∨ s1 = 0x10) → (s2 = 0x08 ∨ s2 = 0x10) →
        (s3 = 0x08 ∨ s3 = 0x10) → (s4 = 0x08 ∨ s4 = 0x10) →
        events = four_acknowledged s1 s2 s3 s4 rest →
        send_i2c_lcd_command_4bit_mode memory ptr bl st events address rs d =
          ⟨lcd_four_writes address d bl rs,
            [(address <<< 1) % 256, lcd_high_byte d bl rs,
              (address <<< 1) % 256, lcd_high_byte d bl rs &&& 0xFB,
              (address <<< 1) % 256, lcd_low_byte d bl rs,
              (address <<< 1) % 256, lcd_low_byte d bl rs &&& 0xFB], true⟩) ∧
      ((lcd_high_byte d bl rs &&& 0xF0) ||| ((lcd_low_byte d bl rs &&& 0xF0) >>> 4)) = d ∧
      (∀ w ∈ lcd_four_writes address d bl rs, w.lcd_i2c_byte &&& 0x02 = 0) := by
  have hr : rs &&& 1 < 2 := by
    rw [Nat.and_one_is_mod]
    exact Nat.mod_lt _ (by norm_num)
  have h := lcd_bytes_table d hd bl (by omega) (rs &&& 1) hr
  simp only [Bool.and_eq_true, decide_eq_true_eq] at h
  obtain ⟨⟨⟨⟨⟨⟨⟨⟨h1, h3⟩, h2⟩, h4⟩, hd'⟩, hw1⟩, hw2⟩, hw3⟩, hw4⟩ := h
  refine ⟨?_, ?_, hd', ?_⟩
  · intro hret
    unfold send_i2c_lcd_command_4bit_mode at hret ⊢
    simp only [h1, h2, h3, h4] at hret ⊢
    split at hret
    · cases hret
    · split at hret
      · cases hret
      · split at hret
        · cases hret
        · rename_i hp1 hp2 hp3
          simp only [hp1, hp2, hp3, if_false]
          rfl
  · intro s1 s2 s3 s4 rest hs1 hs2 hs3 hs4 hev
    subst hev
    unfold send_i2c_lcd_command_4bit_mode four_acknowledged
    simp only [h1, h2, h3, h4, poll_acknowledged _ _ _ _ _ _ hs1,
      poll_acknowledged _ _ _ _ _ _ hs2, poll_acknowledged _ _ _ _ _ _ hs3,
      poll_acknowledged _ _ _ _ _ _ hs4, Function.update_same]
    rfl
  · intro w hw
    simp only [lcd_four_writes, List.mem_cons, List.mem_singleton, List.not_mem_nil,
      or_false] at hw
    rcases hw with hw | hw | hw | hw <;> subst hw
    · exact hw1
    · exact hw2
    · exact hw3
    · exact hw4

/-- Witness for C21: the data byte `0x41` (the letter A) with `rs = 1` and the backlight
on, sent to address `0x3f` over an acknowledging bus, goes out as `0x4D`, `0x49`, `0x1D`,
`0x19`, each after the address byte `0x7e`. -/
theorem lcd_4bit_mode_writes_witness :
    send_i2c_lcd_command_4bit_mode payload_memory 200 1 two_byte_command
        (four_acknowledged 0x08 0x08 0x08 0x08 []) 0x3f 1 0x41 =
      ⟨lcd_four_writes 0x3f 0x41 1 1,
        [(0x3f <<< 1) % 256, lcd_high_byte 0x41 1 1,
          (0x3f <<< 1) % 256, lcd_high_byte 0x41 1 1 &&& 0xFB,
          (0x3f <<< 1) % 256, lcd_low_byte 0x41 1 1,
          (0x3f <<< 1) % 256, lcd_low_byte 0x41 1 1 &&& 0xFB], true⟩ :=
  (lcd_4bit_mode_writes payload_memory 200 1 two_byte_command
    (four_acknowledged 0x08 0x08 0x08 0x08 []) 0x3f 1 0x41 (by decide) (by decide)).2.1
    0x08 0x08 0x08 0x08 [] (Or.inl rfl) (Or.inl rfl) (Or.inl rfl) (Or.inl rfl) rfl

/-- Counterexample to C21 as stated: on `silent_bus` the address of the first write is
never acknowledged, the transaction never reaches `WR_STOP_SENDING`, and the function
stays in its first wait after submitting one write only. -/
theorem lcd_command_hangs_on_silent_bus :
    (¬ (∀ (memory : Nat → Nat) (ptr bl : Nat) (st : twi_i2c_state_t) (events : List Nat)
        (address rs d : Nat), d < 256 → bl ≤ 1 →
        (send_i2c_lcd_command_4bit_mode memory ptr bl st events address rs d).writes =
          lcd_four_writes address d bl rs)) ∧
      send_i2c_lcd_command_4bit_mode payload_memory 200 1 two_byte_command silent_bus
          0x3f 1 0x41 =
        ⟨[⟨0x3f, 1, 0x4D⟩], [0x7e], false⟩ := by
  have hrun : send_i2c_lcd_command_4bit_mode payload_memory 200 1 two_byte_command silent_bus
      0x3f 1 0x41 = ⟨[⟨0x3f, 1, 0x4D⟩], [0x7e], false⟩ := by decide!
  refine ⟨?_, hrun⟩
  intro h
  have h1 := h payload_memory 200 1 two_byte_command silent_bus 0x3f 1 0x41 (by decide)
    (by decide)
  rw [hrun] at h1
  exact absurd h1 (by decide)

/-! ## The verdict of a complete window (C22) -/

/-- C22: for every window with `bitcounter ≥ 43`, whatever the intervals are,
`calculate_am2301_data` leaves `data_validity` and `parity` at the values they had before
the call. -/
theorem calculate_keeps_verdict (w : am2301_interrupt_data_t) (h : 43 ≤ w.bitcounter) :
    (calculate_am2301_data w).data_validity = w.data_validity ∧
      (calculate_am2301_data w).parity = w.parity := by
  have hbc : ¬ w.bitcounter < 43 := by omega
  unfold calculate_am2301_data
  rw [if_neg hbc]
  exact ⟨rfl, rfl⟩

set_option maxRecDepth 100000 in
/-- Witness for C22: the complete window left by `bad_checksum_edges` keeps the verdict
and the parity byte that arming stored. -/
theorem calculate_keeps_verdict_witness :
    (calculate_am2301_data bad_checksum_window).data_validity =
        bad_checksum_window.data_validity ∧
      (calculate_am2301_data bad_checksum_window).parity = bad_checksum_window.parity :=
  calculate_keeps_verdict bad_checksum_window (by decide!)

/-! ## Payload reads of the TWI handler (C23) -/

/-- The handler keeps a write of `1 ≤ n ≤ 255` bytes under way, whatever status it finds. -/
theorem ISR_TWI_in_transaction (memory : Nat → Nat) (n data : Nat) (st : twi_i2c_state_t)
    (TWSR : Nat) (hn1 : 1 ≤ n) (hn : n ≤ 255) (h : twi_in_transaction n data st) :
    twi_in_transaction n data (ISR_TWI memory st TWSR).i2c_state := by
  unfold twi_in_transaction at h ⊢
  rcases h with ⟨hs, hl, hp⟩ | ⟨hs, hl, hp⟩ | ⟨hs, hl, hp⟩ | hs
  · simp only [ISR_TWI, hs, twi_error]
    split
    · left; exact ⟨rfl, hl, hp⟩
    · right; left; exact ⟨rfl, hl, hp⟩
  · simp only [ISR_TWI, hs, twi_error]
    split
    · right; left; exact ⟨rfl, hl, hp⟩
    · right; right; left
      refine ⟨rfl, ?_, ?_⟩
      · simp only; omega
      · simp only; omega
  · simp only [ISR_TWI, hs, twi_error]
    split
    · right; right; left; exact ⟨rfl, hl, hp⟩
    · split
      · right; right; left
        refine ⟨rfl, ?_, ?_⟩
        · simp only; omega
        · simp only; omega
      · right; right; right; rfl
  · right; right; right
    simp [ISR_TWI, hs]

/-- In a write of `1 ≤ n ≤ 255` bytes under way, one run of the handler reads inside the
payload, if it reads, and does not raise `data_length`. -/
theorem ISR_TWI_read_in_payload (memory : Nat → Nat) (n data : Nat) (st : twi_i2c_state_t)
    (TWSR : Nat) (hn1 : 1 ≤ n) (hn : n ≤ 255) (h : twi_in_transaction n data st) :
    (∀ p, ISR_TWI_read st TWSR = some p → data ≤ p ∧ p < data + n) ∧
      (ISR_TWI memory st TWSR).i2c_state.data_length ≤ st.data_length := by
  unfold twi_in_transaction at h
  rcases h with ⟨hs, hl, hp⟩ | ⟨hs, hl, hp⟩ | ⟨hs, hl, hp⟩ | hs
  · constructor
    · intro p hread
      simp [ISR_TWI_read, hs] at hread
    · simp only [ISR_TWI, hs, twi_error]
      split <;> exact le_refl _
  · constructor
    · intro p hread
      simp only [ISR_TWI_read, hs] at hread
      split at hread
      · cases hread
      · cases hread
        omega
    · simp only [ISR_TWI, hs, twi_error]
      split
      · exact le_refl _
      · simp only; omega
  · constructor
    · intro p hread
      simp only [ISR_TWI_read, hs] at hread
      split at hread
      · cases hread
      · split at hread
        · cases hread
          omega
        · cases hread
    · simp only [ISR_TWI, hs, twi_error]
      split
      · exact le_refl _
      · split
        · simp only; omega
        · exact le_refl _
  · constructor
    · intro p hread
      simp [ISR_TWI_read, hs] at hread
    · simp only [ISR_TWI, hs]
      exact le_refl _

/-- Every run of the handler on the events of a write under way starts from a state of
that write. -/
theorem twi_steps_in_transaction (memory : Nat → Nat) (n data : Nat) (hn1 : 1 ≤ n)
    (hn : n ≤ 255) (events : List Nat) :
    ∀ st0 : twi_i2c_state_t, twi_in_transaction n data st0 →
      ∀ st TWSR, (st, TWSR) ∈ twi_steps memory st0 events → twi_in_transaction n data st := by
  induction events with
  | nil =>
    intro st0 _ st TWSR hmem
    simp [twi_steps] at hmem
  | cons e rest ih =>
    intro st0 h0 st TWSR hmem
    simp only [twi_steps, List.mem_cons, Prod.mk.injEq] at hmem
    rcases hmem with ⟨hst, _⟩ | hmem
    · rw [hst]; exact h0
    · exact ih _ (ISR_TWI_in_transaction memory n data st0 e hn1 hn h0) st TWSR hmem

/-- C23, as amended: for every payload length `n` in 1..255 passed to `twi_send_command`
and every sequence of bus events, each run of the handler reads a payload byte only at an
index below `n` (an address in `data .. data + n - 1`) and never raises `data_length`,
so the count does not wrap below zero. -/
theorem twi_reads_within_payload (memory : Nat → Nat) (s : twi_i2c_state_t)
    (a n data : Nat) (events : List Nat) (hn1 : 1 ≤ n) (hn : n ≤ 255) :
    ∀ st TWSR, (st, TWSR) ∈ twi_steps memory (twi_send_command s a n data) events →
      (∀ p, ISR_TWI_read st TWSR = some p → data ≤ p ∧ p < data + n) ∧
        (ISR_TWI memory st TWSR).i2c_state.data_length ≤ st.data_length := by
  intro st TWSR hmem
  have h0 : twi_in_transaction n data (twi_send_command s a n data) := by
    left
    exact ⟨rfl, rfl, rfl⟩
  exact ISR_TWI_read_in_payload memory n data st TWSR hn1 hn
    (twi_steps_in_transaction memory n data hn1 hn events _ h0 st TWSR hmem)

/-- Witness for C23: in the two-byte write of `two_byte_command` the run on the address
acknowledge reads address 100, the first of the payload addresses 100 and 101, and takes
`data_length` from 2 to 1. -/
theorem twi_reads_within_payload_witness :
    ISR_TWI_read address_phase 0x18 = some 100 ∧
      (100 ≤ 100 ∧ 100 < 100 + 2) ∧
      (ISR_TWI payload_memory address_phase 0x18).i2c_state.data_length ≤
        address_phase.data_length :=
  ⟨by decide,
    (twi_reads_within_payload payload_memory ⟨WR_STOP_SENDING, 0, 0, 0, 0⟩ 0x3f 2 100
      [0x08, 0x18, 0x28, 0x28] (by decide) (by decide) address_phase 0x18 (by decide)).1 100
      (by decide),
    (twi_reads_within_payload payload_memory ⟨WR_STOP_SENDING, 0, 0, 0, 0⟩ 0x3f 2 100
      [0x08, 0x18, 0x28, 0x28] (by decide) (by decide) address_phase 0x18 (by decide)).2⟩

/-- Counterexample to C23 as stated: for the length `n = 0` the address acknowledge makes
the handler read the byte at index 0, write it to the data register and wrap
`data_length` from 0 to 255; the next data acknowledge sends a further byte. -/
theorem twi_zero_length_reads_payload :
    (¬ (∀ (memory : Nat → Nat) (s : twi_i2c_state_t) (a n data : Nat) (events : List Nat),
        n ≤ 255 →
        ∀ st TWSR, (st, TWSR) ∈ twi_steps memory (twi_send_command s a n data) events →
          (∀ p, ISR_TWI_read st TWSR = some p → data ≤ p ∧ p < data + n) ∧
            (ISR_TWI memory st TWSR).i2c_state.data_length ≤ st.data_length)) ∧
      (twi_events payload_memory (twi_send_command two_byte_command 0x3f 0 100)
          [0x08, 0x18, 0x28]).map (fun r => (r.TWDR, r.i2c_state.data_length)) =
        [(some 0x7e, 0), (some 0xAB, 255), (some 0xCD, 254)] := by
  constructor
  · intro h
    have hstep := h payload_memory two_byte_command 0x3f 0 100 [0x08, 0x18] (by decide)
      (ISR_TWI payload_memory (twi_send_command two_byte_command 0x3f 0 100) 0x08).i2c_state
      0x18 (by decide)
    have hread := hstep.1 100 (by decide)
    omega
  · decide

/-! ## Bounds of the array write (C24) -/

/-- C24: for every window state and every captured timestamp, one run of the capture
handler either leaves `timestamps[]` as it was, or writes exactly one entry, at the index
`bitcounter - 3` (with the incremented counter), and that index lies in `0 .. 39`. -/
theorem capture_write_in_bounds (w : am2301_interrupt_data_t) (ICR1 : Nat) :
    match ISR_TIMER1_CAPT_write w ICR1 with
    | none => (ISR_TIMER1_CAPT w ICR1).timestamps = w.timestamps
    | some (index, value) =>
      0 ≤ index ∧ index < (TIMESTAMPS : Int) ∧
        index = ((ISR_TIMER1_CAPT w ICR1).bitcounter : Int) - 3 ∧
        ∀ j : Fin TIMESTAMPS, (ISR_TIMER1_CAPT w ICR1).timestamps j =
          if ((j : Nat) : Int) = index then value else w.timestamps j := by
  by_cases h1 : (w.bitcounter + 1) % 256 < 3
  · simp only [ISR_TIMER1_CAPT_write, h1, if_true]
    exact ISR_timestamps_unchanged w ICR1 (Or.inl h1)
  · by_cases h2 : (w.bitcounter + 1) % 256 > 42
    · simp only [ISR_TIMER1_CAPT_write, h1, h2, if_true, if_false]
      exact ISR_timestamps_unchanged w ICR1 (Or.inr h2)
    · simp only [ISR_TIMER1_CAPT_write, h1, h2, if_false]
      rw [ISR_bitcounter]
      refine ⟨by omega, by show _ < (40 : Int); omega, rfl, ?_⟩
      intro j
      by_cases hj : ((j : Nat) : Int) = (((w.bitcounter + 1) % 256 : Nat) : Int) - 3
      · rw [if_pos hj]
        exact ISR_timestamps_written w ICR1 j (by omega)
      · rw [if_neg hj]
        exact ISR_timestamps_other w ICR1 j (by omega)
